import Mathlib

/-!
Verification of the `access-module-encoding` scripts: a shallow embedding of
`check_access_module_encoding.py`, `normalize_access_module_encoding.py` and
`fix_access_mojibake.py`.

Bytes are modelled as `List Nat` (each element `< 256`); decoded text is a
`List Nat` of Unicode code points.  The Python codec operations the scripts
rely on (`bytes.decode`/`str.encode` for utf-8, utf-8-sig, ascii, cp1252 and
utf-16, `str.splitlines`, `str.count`, `str.replace`) are modelled first, with
strict error handling as in CPython (`Option`/`Except` replaces exceptions).
-/

/-- A Unicode scalar value: below 0x110000 and not a surrogate. -/
def isScalar (c : Nat) : Prop := c < 0x110000 ∧ (c < 0xD800 ∨ 0xE000 ≤ c)

instance (c : Nat) : Decidable (isScalar c) := by unfold isScalar; infer_instance

def isScalarList (cs : List Nat) : Prop := ∀ c ∈ cs, isScalar c

/-- UTF-8 encoding of one scalar (Python `str.encode("utf-8")`, per char). -/
def utf8EncodeChar (c : Nat) : List Nat :=
  if c < 0x80 then [c]
  else if c < 0x800 then [0xC0 + c / 64, 0x80 + c % 64]
  else if c < 0x10000 then [0xE0 + c / 4096, 0x80 + c / 64 % 64, 0x80 + c % 64]
  else [0xF0 + c / 0x40000, 0x80 + c / 4096 % 64, 0x80 + c / 64 % 64, 0x80 + c % 64]

/-- Python `str.encode("utf-8")` over a whole text. -/
def utf8Encode (cs : List Nat) : List Nat := (cs.map utf8EncodeChar).flatten

/-- Decode the first UTF-8 sequence of a non-empty byte list, returning the
code point and the remaining bytes.  Follows CPython's strict decoder
(RFC 3629): overlong forms, surrogates, code points above 0x10FFFF and
truncated sequences are rejected. -/
def utf8DecodeOne : List Nat → Option (Nat × List Nat)
  | [] => none
  | b1 :: t1 =>
    if b1 < 0x80 then some (b1, t1)
    else if 0xC2 ≤ b1 ∧ b1 ≤ 0xDF then
      match t1 with
      | b2 :: t2 =>
        if 0x80 ≤ b2 ∧ b2 ≤ 0xBF then
          some ((b1 - 0xC0) * 64 + (b2 - 0x80), t2)
        else none
      | [] => none
    else if 0xE0 ≤ b1 ∧ b1 ≤ 0xEF then
      match t1 with
      | b2 :: b3 :: t3 =>
        if (0x80 ≤ b2 ∧ b2 ≤ 0xBF) ∧ (0x80 ≤ b3 ∧ b3 ≤ 0xBF) ∧
            (b1 = 0xE0 → 0xA0 ≤ b2) ∧ (b1 = 0xED → b2 ≤ 0x9F) then
          some ((b1 - 0xE0) * 4096 + (b2 - 0x80) * 64 + (b3 - 0x80), t3)
        else none
      | _ => none
    else if 0xF0 ≤ b1 ∧ b1 ≤ 0xF4 then
      match t1 with
      | b2 :: b3 :: b4 :: t4 =>
        if (0x80 ≤ b2 ∧ b2 ≤ 0xBF) ∧ (0x80 ≤ b3 ∧ b3 ≤ 0xBF) ∧
            (0x80 ≤ b4 ∧ b4 ≤ 0xBF) ∧
            (b1 = 0xF0 → 0x90 ≤ b2) ∧ (b1 = 0xF4 → b2 ≤ 0x8F) then
          some ((b1 - 0xF0) * 0x40000 + (b2 - 0x80) * 4096 + (b3 - 0x80) * 64
              + (b4 - 0x80), t4)
        else none
      | _ => none
    else none

/-- Fuelled decoding loop for `utf8Decode`: each step consumes at least one
byte, so `fuel = l.length` never runs out. -/
def utf8DecodeGo : Nat → List Nat → Option (List Nat)
  | _, [] => some []
  | 0, _ :: _ => none
  | fuel + 1, b1 :: t1 =>
    match utf8DecodeOne (b1 :: t1) with
    | some (c, rest) => (utf8DecodeGo fuel rest).map (fun cs => c :: cs)
    | none => none

/-- Python `bytes.decode("utf-8")` (strict): `some` text on valid UTF-8,
`none` models `UnicodeDecodeError`. -/
def utf8Decode (l : List Nat) : Option (List Nat) := utf8DecodeGo l.length l

/-- Python `bytes.decode("utf-8-sig")`: strip one UTF-8 BOM if present,
then strict UTF-8. -/
def utf8SigDecode (l : List Nat) : Option (List Nat) :=
  if l.take 3 = [0xEF, 0xBB, 0xBF] then utf8Decode (l.drop 3) else utf8Decode l

/-- Python `bytes.decode("ascii")` (strict). -/
def asciiDecode : List Nat → Option (List Nat)
  | [] => some []
  | b :: t => if b < 0x80 then (asciiDecode t).map (fun cs => b :: cs) else none

/-- Python `str.encode("ascii")` (strict). -/
def asciiEncode : List Nat → Option (List Nat)
  | [] => some []
  | c :: t => if c < 0x80 then (asciiEncode t).map (fun bs => c :: bs) else none

/-- CPython's cp1252 decoding table for one byte: bytes 0x00–0x7F and
0xA0–0xFF map to themselves, 0x80–0x9F map through the Windows-1252 table,
and the five bytes 0x81, 0x8D, 0x8F, 0x90, 0x9D are undefined (strict decode
raises `UnicodeDecodeError`, modelled as `none`). -/
def cp1252DecodeByte (b : Nat) : Option Nat :=
  if b < 0x80 then some b
  else if b = 0x80 then some 0x20AC
  else if b = 0x82 then some 0x201A
  else if b = 0x83 then some 0x192
  else if b = 0x84 then some 0x201E
  else if b = 0x85 then some 0x2026
  else if b = 0x86 then some 0x2020
  else if b = 0x87 then some 0x2021
  else if b = 0x88 then some 0x2C6
  else if b = 0x89 then some 0x2030
  else if b = 0x8A then some 0x160
  else if b = 0x8B then some 0x2039
  else if b = 0x8C then some 0x152
  else if b = 0x8E then some 0x17D
  else if b = 0x91 then some 0x2018
  else if b = 0x92 then some 0x2019
  else if b = 0x93 then some 0x201C
  else if b = 0x94 then some 0x201D
  else if b = 0x95 then some 0x2022
  else if b = 0x96 then some 0x2013
  else if b = 0x97 then some 0x2014
  else if b = 0x98 then some 0x2DC
  else if b = 0x99 then some 0x2122
  else if b = 0x9A then some 0x161
  else if b = 0x9B then some 0x203A
  else if b = 0x9C then some 0x153
  else if b = 0x9E then some 0x17E
  else if b = 0x9F then some 0x178
  else if 0xA0 ≤ b ∧ b ≤ 0xFF then some b
  else none

/-- Python `bytes.decode("cp1252")` (strict). -/
def cp1252Decode : List Nat → Option (List Nat)
  | [] => some []
  | b :: t =>
    match cp1252DecodeByte b with
    | some c => (cp1252Decode t).map (fun cs => c :: cs)
    | none => none

/-- CPython's cp1252 encoding table for one character (the inverse of the
decoding table; characters outside it, including the C1 controls
U+0080–U+009F, raise `UnicodeEncodeError`, modelled as `none`). -/
def cp1252EncodeChar (c : Nat) : Option Nat :=
  if c < 0x80 then some c
  else if 0xA0 ≤ c ∧ c ≤ 0xFF then some c
  else if c = 0x20AC then some 0x80
  else if c = 0x201A then some 0x82
  else if c = 0x192 then some 0x83
  else if c = 0x201E then some 0x84
  else if c = 0x2026 then some 0x85
  else if c = 0x2020 then some 0x86
  else if c = 0x2021 then some 0x87
  else if c = 0x2C6 then some 0x88
  else if c = 0x2030 then some 0x89
  else if c = 0x160 then some 0x8A
  else if c = 0x2039 then some 0x8B
  else if c = 0x152 then some 0x8C
  else if c = 0x17D then some 0x8E
  else if c = 0x2018 then some 0x91
  else if c = 0x2019 then some 0x92
  else if c = 0x201C then some 0x93
  else if c = 0x201D then some 0x94
  else if c = 0x2022 then some 0x95
  else if c = 0x2013 then some 0x96
  else if c = 0x2014 then some 0x97
  else if c = 0x2DC then some 0x98
  else if c = 0x2122 then some 0x99
  else if c = 0x161 then some 0x9A
  else if c = 0x203A then some 0x9B
  else if c = 0x153 then some 0x9C
  else if c = 0x17E then some 0x9E
  else if c = 0x178 then some 0x9F
  else none

/-- Python `str.encode("cp1252")` (strict). -/
def cp1252Encode : List Nat → Option (List Nat)
  | [] => some []
  | c :: t =>
    match cp1252EncodeChar c with
    | some b => (cp1252Encode t).map (fun bs => b :: bs) | none => none

/-- Split a byte list into 16-bit code units (little- or big-endian);
`none` on an odd trailing byte (CPython: "truncated data"). -/
def utf16Units (le : Bool) : List Nat → Option (List Nat)
  | [] => some []
  | [_] => none
  | b0 :: b1 :: rest =>
    (utf16Units le rest).map
      (fun us => (if le then b0 + 256 * b1 else b1 + 256 * b0) :: us)

/-- Combine UTF-16 surrogate pairs into code points; a lone surrogate is a
strict decode error (`none`). -/
def combineSurrogates : List Nat → Option (List Nat)
  | [] => some []
  | u :: rest =>
    if 0xD800 ≤ u ∧ u ≤ 0xDBFF then
      match rest with
      | u2 :: rest2 =>
        if 0xDC00 ≤ u2 ∧ u2 ≤ 0xDFFF then
          (combineSurrogates rest2).map
            (fun cs => (0x10000 + (u - 0xD800) * 0x400 + (u2 - 0xDC00)) :: cs)
        else none
      | [] => none
    else if 0xDC00 ≤ u ∧ u ≤ 0xDFFF then none
    else (combineSurrogates rest).map (fun cs => u :: cs)

/-- Python `bytes.decode("utf-16")` (strict): byte order from a leading BOM
(consumed), defaulting to the platform's native order (little-endian here)
when no BOM is present. -/
def utf16Decode (data : List Nat) : Option (List Nat) :=
  if data.take 2 = [0xFF, 0xFE] then
    (utf16Units true (data.drop 2)).bind combineSurrogates
  else if data.take 2 = [0xFE, 0xFF] then
    (utf16Units false (data.drop 2)).bind combineSurrogates
  else (utf16Units true data).bind combineSurrogates

/-- Scanner for `strCount`: `fuel` bounds the number of scan steps; with a
non-empty pattern every step consumes at least one element, so
`fuel = s.length` never runs out. -/
def strCountAux : Nat → List Nat → List Nat → Nat
  | _, [], _ => 0
  | 0, _ :: _, _ => 0
  | fuel + 1, c :: rest, tok =>
    if tok.isPrefixOf (c :: rest) then
      1 + strCountAux fuel (List.drop (tok.length - 1) rest) tok
    else strCountAux fuel rest tok

/-- Python `str.count(sub)`: number of non-overlapping occurrences, scanning
left to right (an empty pattern counts `len + 1` occurrences, as in Python). -/
def strCount (s tok : List Nat) : Nat :=
  if tok = [] then s.length + 1 else strCountAux s.length s tok

/-- Scanner for `strReplace`, fuelled like `strCountAux`. -/
def strReplaceAux : Nat → List Nat → List Nat → List Nat → List Nat
  | _, [], _, _ => []
  | 0, s, _, _ => s
  | fuel + 1, c :: rest, old, new =>
    if old.isPrefixOf (c :: rest) then
      new ++ strReplaceAux fuel (List.drop (old.length - 1) rest) old new
    else c :: strReplaceAux fuel rest old new

/-- Python `str.replace(old, new)`: replace non-overlapping occurrences left
to right (with Python's empty-pattern behavior of inserting `new` at every
position). -/
def strReplace (s old new : List Nat) : List Nat :=
  if old = [] then new ++ (s.map (fun c => c :: new)).flatten
  else strReplaceAux s.length s old new

/-- The line-boundary code points of Python `str.splitlines`. -/
def isLineBoundary (c : Nat) : Bool :=
  c = 0x0A || c = 0x0D || c = 0x0B || c = 0x0C || c = 0x1C || c = 0x1D ||
  c = 0x1E || c = 0x85 || c = 0x2028 || c = 0x2029

def splitlinesAux : List Nat → List Nat → List (List Nat)
  | [], acc => if acc.isEmpty then [] else [acc.reverse]
  | 0x0D :: 0x0A :: rest, acc => (acc.reverse ++ [0x0D, 0x0A]) :: splitlinesAux rest []
  | c :: rest, acc =>
    if isLineBoundary c then (acc.reverse ++ [c]) :: splitlinesAux rest []
    else splitlinesAux rest (c :: acc)

/-- Python `str.splitlines(keepends=True)` (CR LF kept as one boundary). -/
def splitlinesKeepends (s : List Nat) : List (List Nat) := splitlinesAux s []

/-!
## Shared structures of the three scripts

All three scripts define an identical `_classify_bytes`; the fixer and the
normalizer additionally share identical `classify` and `decode_bytes`
functions.  Each script's functions are embedded in its own namespace
(`Check`, `Fix`, `Normalize`); the leading underscore of `_classify_bytes`
is dropped (`classify_bytes`).
-/

/-- Result of one per-file run of `normalize_access_module_encoding.normalize_file`:
the label and action it returns, plus the file bytes after the call and
whether a backup was written (modelling the filesystem effects). -/
structure NormResult where
  label : String
  action : String
  fileAfter : List Nat
  backupWritten : Bool
deriving DecidableEq, Repr

/-- Result of one per-file run of `fix_access_mojibake.normalize_file`:
label, action, before/after mojibake scores, plus file/backup effects.
The `error` action covers a `UnicodeEncodeError` escaping from
`encode_text` (caught by `main`'s blanket handler). -/
structure FixResult where
  label : String
  action : String
  before : Nat
  after : Nat
  fileAfter : List Nat
  backupWritten : Bool
deriving DecidableEq, Repr

namespace Check

/-- `check_access_module_encoding._classify_bytes`. -/
def classify_bytes (data : List Nat) : String × List Nat :=
  if data.take 3 = [0xEF, 0xBB, 0xBF] then
    match utf8Decode (data.drop 3) with
    | some _ => ("utf8-bom", data.drop 3)
    | none => ("utf8-bom-invalid", data.drop 3)
  else if data.take 2 = [0xFF, 0xFE] then ("utf16-le", data)
  else if data.take 2 = [0xFE, 0xFF] then ("utf16-be", data)
  else if data.contains 0 then ("binary", data)
  else
    match utf8Decode data with
    | some _ => ("utf8", data)
    | none => ("ansi-cp1252", data)

/-- `check_access_module_encoding.classify_file`, as a function of the file's
bytes: returns (label, size, non_ascii flag, ok flag). -/
def classify_file (data : List Nat) : String × Nat × Bool × Bool :=
  let r := classify_bytes data
  let nonAscii := r.2.any (fun b => 0x80 ≤ b)
  if nonAscii = false then ("ascii-only", data.length, false, true)
  else (r.1, data.length, nonAscii, true)

end Check

namespace Fix

/-- `fix_access_mojibake._classify_bytes` (identical to the checker's). -/
def classify_bytes (data : List Nat) : String × List Nat :=
  if data.take 3 = [0xEF, 0xBB, 0xBF] then
    match utf8Decode (data.drop 3) with
    | some _ => ("utf8-bom", data.drop 3)
    | none => ("utf8-bom-invalid", data.drop 3)
  else if data.take 2 = [0xFF, 0xFE] then ("utf16-le", data)
  else if data.take 2 = [0xFE, 0xFF] then ("utf16-be", data)
  else if data.contains 0 then ("binary", data)
  else
    match utf8Decode data with
    | some _ => ("utf8", data)
    | none => ("ansi-cp1252", data)

/-- `fix_access_mojibake.classify`: refine `utf8`/`ansi-cp1252` to
`ascii-only` when the payload has no byte ≥ 0x80. -/
def classify (data : List Nat) : String :=
  let r := classify_bytes data
  if r.1 = "utf8" ∨ r.1 = "ansi-cp1252" then
    if r.2.any (fun b => 0x80 ≤ b) = false then "ascii-only" else r.1
  else r.1

/-- `fix_access_mojibake.decode_bytes`: `.ok (some t)` is a decoded text,
`.ok none` is Python's `return None`, `.error ()` a `UnicodeDecodeError`. -/
def decode_bytes (data : List Nat) (label : String) :
    Except Unit (Option (List Nat)) :=
  if label = "utf8" then
    match utf8Decode data with | some t => .ok (some t) | none => .error ()
  else if label = "utf8-bom" then
    match utf8SigDecode data with | some t => .ok (some t) | none => .error ()
  else if label = "ascii-only" then
    match asciiDecode data with | some t => .ok (some t) | none => .error ()
  else if label = "ansi-cp1252" then
    match cp1252Decode data with | some t => .ok (some t) | none => .error ()
  else if label = "utf16-le" ∨ label = "utf16-be" then
    match utf16Decode data with | some t => .ok (some t) | none => .error ()
  else .ok none

/-- `fix_access_mojibake.encode_text`; `none` models a `UnicodeEncodeError`
(possible for the cp1252 and ascii branches). -/
def encode_text (text : List Nat) (label : String) : Option (List Nat) :=
  if label = "ansi-cp1252" then cp1252Encode text
  else if label = "ascii-only" then asciiEncode text
  else some (utf8Encode text)

/-- `fix_access_mojibake.SUSPICIOUS_TOKENS`: Ã, Â, â€, and U+FFFD. -/
def SUSPICIOUS_TOKENS : List (List Nat) := [[0xC3], [0xC2], [0xE2, 0x20AC], [0xFFFD]]

/-- `fix_access_mojibake.mojibake_score`. -/
def mojibake_score (text : List Nat) : Nat :=
  (SUSPICIOUS_TOKENS.map (fun tok => strCount text tok)).sum

/-- One iteration of the per-line loop of `fix_utf8_in_cp1252`:
accumulates (new_lines, changed). -/
def fixLineStep (acc : List (List Nat) × Bool) (line : List Nat) :
    List (List Nat) × Bool :=
  match (cp1252Encode line).bind utf8Decode with
  | none => (acc.1 ++ [line], acc.2)
  | some rl =>
    if mojibake_score rl < mojibake_score line then (acc.1 ++ [rl], true)
    else (acc.1 ++ [line], acc.2)

/-- `fix_access_mojibake.fix_utf8_in_cp1252`. -/
def fix_utf8_in_cp1252 (text : List Nat) : List Nat × Bool :=
  match (cp1252Encode text).bind utf8Decode with
  | some repaired =>
    if mojibake_score repaired < mojibake_score text then (repaired, true)
    else (text, false)
  | none =>
    let res := (splitlinesKeepends text).foldl fixLineStep ([], false)
    if res.2 = false then (text, false)
    else
      let repaired := res.1.flatten
      if mojibake_score repaired < mojibake_score text then (repaired, true)
      else (text, false)

/-- `fix_access_mojibake.apply_map`: replace every key by its value, in
mapping order, each against the current text. -/
def apply_map (text : List Nat) (mapping : List (List Nat × List Nat)) :
    List Nat :=
  mapping.foldl (fun t kv => strReplace t kv.1 kv.2) text

end Fix

namespace Fix

/-- The text-transformation stage of `fix_access_mojibake.normalize_file`
(lines "before = mojibake_score(text)" through "after = ..."): returns the
final text and the `changed` flag.  The map stage runs only when
`apply_map_flag` is set and the mapping is a non-empty dict (Python
truthiness of `mapping`). -/
def transform_text (text0 : List Nat) (fix_utf8 : Bool)
    (mapping : Option (List (List Nat × List Nat))) (apply_map_flag : Bool) :
    List Nat × Bool :=
  let step1 := if fix_utf8 then fix_utf8_in_cp1252 text0 else (text0, false)
  match mapping with
  | some m =>
    if apply_map_flag && !m.isEmpty then
      let mapped := apply_map step1.1 m
      if mapped ≠ step1.1 then (mapped, true) else step1
    else step1
  | none => step1

/-- `fix_access_mojibake.normalize_file`, as a pure function of the file's
bytes and the flags; `backupExists` models `backup_path.exists()`. -/
def normalize_file (data : List Nat) (applyFlag backup backupExists : Bool)
    (fix_utf8 : Bool) (mapping : Option (List (List Nat × List Nat)))
    (apply_map_flag : Bool) : FixResult :=
  let label := classify data
  if label = "binary" ∨ label = "utf8-bom-invalid" then
    ⟨label, "skip", 0, 0, data, false⟩
  else
    match decode_bytes data label with
    | .error _ => ⟨label, "decode-error", 0, 0, data, false⟩
    | .ok none => ⟨label, "skip", 0, 0, data, false⟩
    | .ok (some text0) =>
      let before := mojibake_score text0
      let step := transform_text text0 fix_utf8 mapping apply_map_flag
      let after := mojibake_score step.1
      if step.2 = false then ⟨label, "ok", before, after, data, false⟩
      else if applyFlag = false then ⟨label, "dry-run", before, after, data, false⟩
      else if backup && backupExists then
        ⟨label, "backup-exists", before, after, data, false⟩
      else
        match encode_text step.1 label with
        | some outBytes => ⟨label, "write", before, after, outBytes, backup⟩
        | none => ⟨label, "error", before, after, data, backup⟩

/-- Whether `fix_access_mojibake.normalize_file` detects a change for these
bytes and transform flags (the value of its `changed` variable after the
transform stage; `false` on skip/decode-error paths). -/
def change_detected (data : List Nat) (fix_utf8 : Bool)
    (mapping : Option (List (List Nat × List Nat))) (apply_map_flag : Bool) :
    Bool :=
  let label := classify data
  if label = "binary" ∨ label = "utf8-bom-invalid" then false
  else
    match decode_bytes data label with
    | .ok (some text0) => (transform_text text0 fix_utf8 mapping apply_map_flag).2
    | _ => false

/-- `fix_access_mojibake.SPANISH_DEFAULTS` as an ordered key/value list
(insertion order of the Python dict literal); `0xFFFD` is `�`. -/
def SPANISH_DEFAULTS : List (List Nat × List Nat) := [
  ([0x6D, 0xFFFD, 0x74, 0x6F, 0x64, 0x6F],
   [0x6D, 0xE9, 0x74, 0x6F, 0x64, 0x6F]),
  ([0x53, 0xFFFD],
   [0x53, 0xED]),
  ([0x72, 0x61, 0xFFFD, 0x7A],
   [0x72, 0x61, 0xED, 0x7A]),
  ([0x65, 0x64, 0x69, 0x63, 0x69, 0xFFFD, 0x6E],
   [0x65, 0x64, 0x69, 0x63, 0x69, 0xF3, 0x6E]),
  ([0x70, 0x5F, 0x41, 0xFFFD, 0x6F],
   [0x70, 0x5F, 0x41, 0xF1, 0x6F]),
  ([0x70, 0x61, 0x72, 0xFFFD, 0x6D, 0x65, 0x74, 0x72, 0x6F],
   [0x70, 0x61, 0x72, 0xE1, 0x6D, 0x65, 0x74, 0x72, 0x6F]),
  ([0x50, 0x72, 0x6F, 0x70, 0xFFFD, 0x73, 0x69, 0x74, 0x6F],
   [0x50, 0x72, 0x6F, 0x70, 0xF3, 0x73, 0x69, 0x74, 0x6F]),
  ([0x50, 0x61, 0x72, 0xFFFD, 0x6D, 0x65, 0x74, 0x72, 0x6F, 0x73],
   [0x50, 0x61, 0x72, 0xE1, 0x6D, 0x65, 0x74, 0x72, 0x6F, 0x73]),
  ([0x73, 0x65, 0x67, 0xFFFD, 0x6E],
   [0x73, 0x65, 0x67, 0xFA, 0x6E]),
  ([0x6A, 0x65, 0x72, 0xFFFD, 0x72, 0x71, 0x75, 0x69, 0x63, 0x6F],
   [0x6A, 0x65, 0x72, 0xE1, 0x72, 0x71, 0x75, 0x69, 0x63, 0x6F]),
  ([0x4C, 0xFFFD, 0x67, 0x69, 0x63, 0x61],
   [0x4C, 0xF3, 0x67, 0x69, 0x63, 0x61]),
  ([0x4D, 0xFFFD, 0x78, 0x44, 0x65, 0x49, 0x44, 0x45, 0x64, 0x69, 0x63, 0x69, 0x6F, 0x6E],
   [0x4D, 0xE1, 0x78, 0x44, 0x65, 0x49, 0x44, 0x45, 0x64, 0x69, 0x63, 0x69, 0x6F, 0x6E]),
  ([0x63, 0x6F, 0x6E, 0x65, 0x78, 0x69, 0xFFFD, 0x6E],
   [0x63, 0x6F, 0x6E, 0x65, 0x78, 0x69, 0xF3, 0x6E]),
  ([0x56, 0x61, 0x6C, 0x69, 0x64, 0x61, 0x63, 0x69, 0xFFFD, 0x6E],
   [0x56, 0x61, 0x6C, 0x69, 0x64, 0x61, 0x63, 0x69, 0xF3, 0x6E]),
  ([0x6C, 0xFFFD, 0x67, 0x69, 0x63, 0x61],
   [0x6C, 0xF3, 0x67, 0x69, 0x63, 0x61]),
  ([0x70, 0x75, 0x62, 0x6C, 0x69, 0x63, 0x61, 0x63, 0x69, 0xFFFD, 0x6E],
   [0x70, 0x75, 0x62, 0x6C, 0x69, 0x63, 0x61, 0x63, 0x69, 0xF3, 0x6E]),
  ([0xFFFD, 0x44, 0x65, 0x73, 0x65, 0x61],
   [0xBF, 0x44, 0x65, 0x73, 0x65, 0x61]),
  ([0x61, 0x63, 0x63, 0x69, 0xFFFD, 0x6E],
   [0x61, 0x63, 0x63, 0x69, 0xF3, 0x6E]),
  ([0x4D, 0xFFFD, 0x6E, 0x44, 0x65, 0x49, 0x44, 0x45, 0x64, 0x69, 0x63, 0x69, 0x6F, 0x6E],
   [0x4D, 0xED, 0x6E, 0x44, 0x65, 0x49, 0x44, 0x45, 0x64, 0x69, 0x63, 0x69, 0x6F, 0x6E]),
  ([0x6A, 0x65, 0x72, 0xFFFD, 0x72, 0x71, 0x75, 0x69, 0x63, 0x61],
   [0x6A, 0x65, 0x72, 0xE1, 0x72, 0x71, 0x75, 0x69, 0x63, 0x61]),
  ([0x6E, 0x75, 0x6D, 0xFFFD, 0x72, 0x69, 0x63, 0x6F],
   [0x6E, 0x75, 0x6D, 0xE9, 0x72, 0x69, 0x63, 0x6F]),
  ([0x70, 0x61, 0x72, 0xFFFD, 0x6D, 0x65, 0x74, 0x72, 0x6F, 0x73],
   [0x70, 0x61, 0x72, 0xE1, 0x6D, 0x65, 0x74, 0x72, 0x6F, 0x73]),
  ([0x43, 0x6F, 0x6E, 0x73, 0x74, 0x72, 0x75, 0x63, 0x63, 0x69, 0xFFFD, 0x6E],
   [0x43, 0x6F, 0x6E, 0x73, 0x74, 0x72, 0x75, 0x63, 0x63, 0x69, 0xF3, 0x6E]),
  ([0x45, 0x6A, 0x65, 0x63, 0x75, 0x63, 0x69, 0xFFFD, 0x6E],
   [0x45, 0x6A, 0x65, 0x63, 0x75, 0x63, 0x69, 0xF3, 0x6E]),
  ([0x76, 0x69, 0x73, 0x75, 0x61, 0x6C, 0x69, 0x7A, 0x61, 0x63, 0x69, 0xFFFD, 0x6E],
   [0x76, 0x69, 0x73, 0x75, 0x61, 0x6C, 0x69, 0x7A, 0x61, 0x63, 0x69, 0xF3, 0x6E]),
  ([0x4E, 0x65, 0x6D, 0x6F, 0x74, 0xFFFD, 0x63, 0x6E, 0x69, 0x63, 0x6F],
   [0x4E, 0x65, 0x6D, 0x6F, 0x74, 0xE9, 0x63, 0x6E, 0x69, 0x63, 0x6F]),
  ([0x76, 0x61, 0x6C, 0x69, 0x64, 0x61, 0x63, 0x69, 0xFFFD, 0x6E],
   [0x76, 0x61, 0x6C, 0x69, 0x64, 0x61, 0x63, 0x69, 0xF3, 0x6E]),
  ([0x54, 0x65, 0x6C, 0x65, 0x66, 0xFFFD, 0x6E, 0x69, 0x63, 0x61],
   [0x54, 0x65, 0x6C, 0x65, 0x66, 0xF3, 0x6E, 0x69, 0x63, 0x61]),
  ([0xFFFD, 0x72, 0x62, 0x6F, 0x6C],
   [0xE1, 0x72, 0x62, 0x6F, 0x6C]),
  ([0x53, 0xFFFD, 0x6C, 0x6F],
   [0x53, 0xF3, 0x6C, 0x6F]),
  ([0x61, 0xFFFD, 0x6F],
   [0x61, 0xF1, 0x6F]),
  ([0x6E, 0xFFFD, 0x6D, 0x65, 0x72, 0x6F],
   [0x6E, 0xFA, 0x6D, 0x65, 0x72, 0x6F]),
  ([0x65, 0x73, 0x74, 0xFFFD],
   [0x65, 0x73, 0x74, 0xE1]),
  ([0x54, 0xFFFD, 0x43, 0x4E, 0x49, 0x43, 0x41],
   [0x54, 0xC9, 0x43, 0x4E, 0x49, 0x43, 0x41])]

end Fix

/-!
## Python dict model (insertion-ordered association list)

`main` of the fixer builds its substitution mapping with `dict.update`:
updating an existing key replaces its value in place, a new key is appended.
-/

/-- `d[k] = v` on an insertion-ordered dict. -/
def setKey : List (List Nat × List Nat) → List Nat × List Nat →
    List (List Nat × List Nat)
  | [], kv => [kv]
  | e :: rest, kv =>
    if e.1 = kv.1 then kv :: rest else e :: setKey rest kv

/-- Python `d.update(e)`: entries of `e` upserted into `d` in order. -/
def dictUpdate (d e : List (List Nat × List Nat)) :
    List (List Nat × List Nat) :=
  e.foldl setKey d

/-- Python `d[k]` / key lookup (first matching entry). -/
def lookupD (m : List (List Nat × List Nat)) (k : List Nat) :
    Option (List Nat) :=
  match m with
  | [] => none
  | e :: rest => if e.1 = k then some e.2 else lookupD rest k

namespace Fix

/-- The mapping constructed by `fix_access_mojibake.main` from the
`--spanish-defaults` flag and an optional external `--map` JSON object
(`mapping = {}`, `update(SPANISH_DEFAULTS)` if requested, `update(external)`
if given, and `None` when the result is empty). -/
def build_mapping (spanishDefaults : Bool)
    (externalMap : Option (List (List Nat × List Nat))) :
    Option (List (List Nat × List Nat)) :=
  let m0 : List (List Nat × List Nat) := []
  let m1 := if spanishDefaults then dictUpdate m0 SPANISH_DEFAULTS else m0
  let m2 := match externalMap with
    | some e => dictUpdate m1 e
    | none => m1
  if m2.isEmpty then none else some m2

end Fix

namespace Normalize

/-- `normalize_access_module_encoding._classify_bytes` (identical to the
checker's and the fixer's). -/
def classify_bytes (data : List Nat) : String × List Nat :=
  if data.take 3 = [0xEF, 0xBB, 0xBF] then
    match utf8Decode (data.drop 3) with
    | some _ => ("utf8-bom", data.drop 3)
    | none => ("utf8-bom-invalid", data.drop 3)
  else if data.take 2 = [0xFF, 0xFE] then ("utf16-le", data)
  else if data.take 2 = [0xFE, 0xFF] then ("utf16-be", data)
  else if data.contains 0 then ("binary", data)
  else
    match utf8Decode data with
    | some _ => ("utf8", data)
    | none => ("ansi-cp1252", data)

/-- `normalize_access_module_encoding.classify` (identical to the fixer's). -/
def classify (data : List Nat) : String :=
  let r := classify_bytes data
  if r.1 = "utf8" ∨ r.1 = "ansi-cp1252" then
    if r.2.any (fun b => 0x80 ≤ b) = false then "ascii-only" else r.1
  else r.1

/-- `normalize_access_module_encoding.decode_bytes` (identical to the
fixer's). -/
def decode_bytes (data : List Nat) (label : String) :
    Except Unit (Option (List Nat)) :=
  if label = "utf8" then
    match utf8Decode data with | some t => .ok (some t) | none => .error ()
  else if label = "utf8-bom" then
    match utf8SigDecode data with | some t => .ok (some t) | none => .error ()
  else if label = "ascii-only" then
    match asciiDecode data with | some t => .ok (some t) | none => .error ()
  else if label = "ansi-cp1252" then
    match cp1252Decode data with | some t => .ok (some t) | none => .error ()
  else if label = "utf16-le" ∨ label = "utf16-be" then
    match utf16Decode data with | some t => .ok (some t) | none => .error ()
  else .ok none

/-- `normalize_access_module_encoding.normalize_file`, as a pure function of
the file's bytes and flags.  Note the polarity: the flag is `dry_run`
(`--dry-run`); with `dry_run = false` (the command-line default) a detected
change is written. -/
def normalize_file (data : List Nat) (dry_run backup backupExists : Bool) :
    NormResult :=
  let label := classify data
  if label = "binary" ∨ label = "utf8-bom-invalid" then ⟨label, "skip", data, false⟩
  else
    match decode_bytes data label with
    | .error _ => ⟨label, "decode-error", data, false⟩
    | .ok none => ⟨label, "skip", data, false⟩
    | .ok (some text) =>
      let newBytes := utf8Encode text
      if newBytes = data then ⟨label, "ok", data, false⟩
      else if dry_run then ⟨label, "dry-run", data, false⟩
      else if backup && backupExists then ⟨label, "backup-exists", data, false⟩
      else ⟨label, "write", newBytes, backup⟩

/-- The decoded text `normalize_file` works on, when it reaches the
transform (i.e. the label is decodable and decoding succeeds). -/
def text_of (data : List Nat) : Option (List Nat) :=
  let label := classify data
  if label = "binary" ∨ label = "utf8-bom-invalid" then none
  else
    match decode_bytes data label with
    | .ok (some text) => some text
    | _ => none

/-- Whether `normalize_file` detects a change for these bytes
(`new_bytes != data` after a successful decode). -/
def change_detected (data : List Nat) : Bool :=
  match text_of data with
  | some text => utf8Encode text ≠ data
  | none => false

end Normalize


theorem utf8DecodeOne_spec {l : List Nat} {c : Nat} {rest : List Nat}
    (h : utf8DecodeOne l = some (c, rest)) :
    isScalar c ∧ rest.length < l.length := by
  rcases l with _ | ⟨b1, t1⟩
  · simp [utf8DecodeOne] at h
  · simp only [utf8DecodeOne] at h
    split at h
    case isTrue h1 =>
      simp only [Option.some.injEq, Prod.mk.injEq] at h
      obtain ⟨rfl, rfl⟩ := h
      exact ⟨⟨by omega, by omega⟩, by simp only [List.length_cons]; omega⟩
    case isFalse h1 =>
      split at h
      case isTrue h2 =>
        rcases t1 with _ | ⟨b2, t2⟩
        · simp at h
        · dsimp only at h
          split at h
          case isTrue h3 =>
            simp only [Option.some.injEq, Prod.mk.injEq] at h
            obtain ⟨rfl, rfl⟩ := h
            exact ⟨⟨by omega, by omega⟩, by simp only [List.length_cons]; omega⟩
          case isFalse => simp at h
      case isFalse h2 =>
        split at h
        case isTrue h3 =>
          rcases t1 with _ | ⟨b2, _ | ⟨b3, t3⟩⟩
          · simp at h
          · dsimp only at h; simp at h
          · dsimp only at h
            split at h
            case isTrue h4 =>
              simp only [Option.some.injEq, Prod.mk.injEq] at h
              obtain ⟨rfl, rfl⟩ := h
              exact ⟨⟨by omega, by omega⟩, by simp only [List.length_cons]; omega⟩
            case isFalse => simp at h
        case isFalse h3 =>
          split at h
          case isTrue h4 =>
            rcases t1 with _ | ⟨b2, _ | ⟨b3, _ | ⟨b4, t4⟩⟩⟩
            · simp at h
            · dsimp only at h; simp at h
            · dsimp only at h; simp at h
            · dsimp only at h
              split at h
              case isTrue h5 =>
                simp only [Option.some.injEq, Prod.mk.injEq] at h
                obtain ⟨rfl, rfl⟩ := h
                exact ⟨⟨by omega, by omega⟩, by simp only [List.length_cons]; omega⟩
              case isFalse => simp at h
          case isFalse => simp at h

theorem utf8DecodeGo_fuel :
    ∀ (fuel fuel' : Nat) (l : List Nat), l.length ≤ fuel → l.length ≤ fuel' →
      utf8DecodeGo fuel l = utf8DecodeGo fuel' l := by
  intro fuel
  induction fuel with
  | zero =>
    intro fuel' l hl hl'
    have : l = [] := by
      cases l with
      | nil => rfl
      | cons a t => simp at hl
    subst this
    cases fuel' <;> rfl
  | succ fuel ih =>
    intro fuel' l hl hl'
    cases l with
    | nil => cases fuel' <;> rfl
    | cons b1 t1 =>
      cases fuel' with
      | zero => simp at hl'
      | succ fuel'' =>
        show (match utf8DecodeOne (b1 :: t1) with
          | some (c, rest) => (utf8DecodeGo fuel rest).map (fun cs => c :: cs)
          | none => none) =
          (match utf8DecodeOne (b1 :: t1) with
          | some (c, rest) => (utf8DecodeGo fuel'' rest).map (fun cs => c :: cs)
          | none => none)
        cases hd : utf8DecodeOne (b1 :: t1) with
        | none => rfl
        | some cr =>
          obtain ⟨c, rest⟩ := cr
          have hlen := (utf8DecodeOne_spec hd).2
          simp only [List.length_cons] at hlen hl hl'
          dsimp only
          rw [ih fuel'' rest (by omega) (by omega)]

theorem utf8Decode_cons (b1 : Nat) (t1 : List Nat) :
    utf8Decode (b1 :: t1) =
      match utf8DecodeOne (b1 :: t1) with
      | some (c, rest) => (utf8Decode rest).map (fun cs => c :: cs)
      | none => none := by
  show utf8DecodeGo (b1 :: t1).length (b1 :: t1) = _
  rw [List.length_cons]
  show (match utf8DecodeOne (b1 :: t1) with
    | some (c, rest) => (utf8DecodeGo t1.length rest).map (fun cs => c :: cs)
    | none => none) = _
  cases hd : utf8DecodeOne (b1 :: t1) with
  | none => rfl
  | some cr =>
    obtain ⟨c, rest⟩ := cr
    have hlen := (utf8DecodeOne_spec hd).2
    simp only [List.length_cons] at hlen
    dsimp only
    rw [utf8DecodeGo_fuel t1.length rest.length rest (by omega) (by omega)]
    rfl

theorem utf8EncodeChar_ne_nil (c : Nat) : utf8EncodeChar c ≠ [] := by
  unfold utf8EncodeChar
  split
  · simp
  · split
    · simp
    · split <;> simp

theorem utf8Encode_cons (c : Nat) (cs : List Nat) :
    utf8Encode (c :: cs) = utf8EncodeChar c ++ utf8Encode cs := by
  unfold utf8Encode
  rw [List.map_cons, List.flatten_cons]

theorem utf8DecodeOne_encodeChar {c : Nat} (hc : isScalar c) (rest : List Nat) :
    utf8DecodeOne (utf8EncodeChar c ++ rest) = some (c, rest) := by
  obtain ⟨hlt, hsur⟩ := hc
  unfold utf8EncodeChar
  by_cases h1 : c < 0x80
  · rw [if_pos h1]
    simp only [List.cons_append, List.nil_append, utf8DecodeOne]
    rw [if_pos h1]
  · by_cases h2 : c < 0x800
    · rw [if_neg h1, if_pos h2]
      simp only [List.cons_append, List.nil_append, utf8DecodeOne]
      rw [if_neg (by omega), if_pos (by omega : 0xC2 ≤ 0xC0 + c / 64 ∧ 0xC0 + c / 64 ≤ 0xDF)]
      rw [if_pos (by omega : 0x80 ≤ 0x80 + c % 64 ∧ 0x80 + c % 64 ≤ 0xBF)]
      have hv : (0xC0 + c / 64 - 0xC0) * 64 + (0x80 + c % 64 - 0x80) = c := by omega
      rw [hv]
    · by_cases h3 : c < 0x10000
      · rw [if_neg h1, if_neg h2, if_pos h3]
        simp only [List.cons_append, List.nil_append, utf8DecodeOne]
        rw [if_neg (by omega), if_neg (by omega),
          if_pos (by omega : 0xE0 ≤ 0xE0 + c / 4096 ∧ 0xE0 + c / 4096 ≤ 0xEF)]
        rw [if_pos (by
          refine ⟨⟨by omega, by omega⟩, ⟨by omega, by omega⟩, ?_, ?_⟩ <;>
            intro he <;> omega)]
        have hv : (0xE0 + c / 4096 - 0xE0) * 4096 + (0x80 + c / 64 % 64 - 0x80) * 64
            + (0x80 + c % 64 - 0x80) = c := by omega
        rw [hv]
      · rw [if_neg h1, if_neg h2, if_neg h3]
        simp only [List.cons_append, List.nil_append, utf8DecodeOne]
        rw [if_neg (by omega), if_neg (by omega), if_neg (by omega),
          if_pos (by omega : 0xF0 ≤ 0xF0 + c / 0x40000 ∧ 0xF0 + c / 0x40000 ≤ 0xF4)]
        rw [if_pos (by
          refine ⟨⟨by omega, by omega⟩, ⟨by omega, by omega⟩, ⟨by omega, by omega⟩, ?_, ?_⟩ <;>
            intro he <;> omega)]
        have hv : (0xF0 + c / 0x40000 - 0xF0) * 0x40000
            + (0x80 + c / 4096 % 64 - 0x80) * 4096
            + (0x80 + c / 64 % 64 - 0x80) * 64 + (0x80 + c % 64 - 0x80) = c := by
          omega
        rw [hv]

theorem utf8Decode_encodeChar_append {c : Nat} (hc : isScalar c)
    (rest : List Nat) :
    utf8Decode (utf8EncodeChar c ++ rest) =
      (utf8Decode rest).map (fun cs => c :: cs) := by
  rcases hE : utf8EncodeChar c with _ | ⟨b, bs⟩
  · exact absurd hE (utf8EncodeChar_ne_nil c)
  · have hone := utf8DecodeOne_encodeChar hc rest
    rw [hE] at hone
    rw [List.cons_append] at hone ⊢
    rw [utf8Decode_cons, hone]

/-- UTF-8 decoding inverts UTF-8 encoding on texts of scalar values. -/
theorem utf8Decode_utf8Encode {cs : List Nat} (h : isScalarList cs) :
    utf8Decode (utf8Encode cs) = some cs := by
  induction cs with
  | nil => rfl
  | cons c rest ih =>
    have hc : isScalar c := h c (by simp)
    have hrest : isScalarList rest := fun x hx => h x (by simp [hx])
    rw [utf8Encode_cons, utf8Decode_encodeChar_append hc, ih hrest]
    rfl

/-- Every text produced by the strict UTF-8 decoder consists of scalar
values. -/
theorem utf8Decode_isScalarList :
    ∀ {l cs : List Nat}, utf8Decode l = some cs → isScalarList cs := by
  have key : ∀ (n : Nat) (l cs : List Nat), l.length ≤ n →
      utf8Decode l = some cs → isScalarList cs := by
    intro n
    induction n with
    | zero =>
      intro l cs hl h
      have : l = [] := by cases l with | nil => rfl | cons a t => simp at hl
      subst this
      have : cs = [] := by
        have : (some [] : Option (List Nat)) = some cs := h
        simpa using this.symm
      subst this
      intro x hx
      exact absurd hx (List.not_mem_nil x)
    | succ n ih =>
      intro l cs hl h
      cases l with
      | nil =>
        have : cs = [] := by
          have : (some [] : Option (List Nat)) = some cs := h
          simpa using this.symm
        subst this
        intro x hx
        exact absurd hx (List.not_mem_nil x)
      | cons b1 t1 =>
        rw [utf8Decode_cons] at h
        cases hd : utf8DecodeOne (b1 :: t1) with
        | none => rw [hd] at h; simp at h
        | some cr =>
          obtain ⟨c, rest⟩ := cr
          rw [hd] at h
          dsimp only at h
          obtain ⟨hsc, hlen⟩ := utf8DecodeOne_spec hd
          cases hcs : utf8Decode rest with
          | none => rw [hcs] at h; simp at h
          | some cs' =>
            rw [hcs] at h
            have h' : c :: cs' = cs := by simpa using h
            subst h'
            intro x hx
            rcases List.mem_cons.mp hx with rfl | hx'
            · exact hsc
            · have hr : rest.length ≤ n := by
                simp only [List.length_cons] at hl hlen
                omega
              exact ih rest cs' hr hcs x hx'
  intro l cs h
  exact key l.length l cs le_rfl h

theorem utf8EncodeChar_head_ge {c : Nat} (hc : ¬ c < 0x80) :
    ∃ b1 bs, utf8EncodeChar c = b1 :: bs ∧ 0x80 ≤ b1 := by
  unfold utf8EncodeChar
  rw [if_neg hc]
  split
  · exact ⟨_, _, rfl, by omega⟩
  · split
    · exact ⟨_, _, rfl, by omega⟩
    · exact ⟨_, _, rfl, by omega⟩

theorem utf8EncodeChar_mem_lt {c : Nat} (hc : isScalar c) :
    ∀ b ∈ utf8EncodeChar c, b < 0xF5 := by
  obtain ⟨hlt, hsur⟩ := hc
  intro b hb
  unfold utf8EncodeChar at hb
  split at hb
  · simp only [List.mem_singleton] at hb
    omega
  · split at hb
    · simp only [List.mem_cons, List.mem_singleton] at hb
      rcases hb with rfl | rfl | hb
      · omega
      · omega
      · simp at hb
    · split at hb
      · simp only [List.mem_cons, List.mem_singleton] at hb
        rcases hb with rfl | rfl | rfl | hb
        · omega
        · omega
        · omega
        · simp at hb
      · simp only [List.mem_cons, List.mem_singleton] at hb
        rcases hb with rfl | rfl | rfl | rfl | hb
        · omega
        · omega
        · omega
        · omega
        · simp at hb

theorem utf8Encode_mem_lt {cs : List Nat} (h : isScalarList cs) :
    ∀ b ∈ utf8Encode cs, b < 0xF5 := by
  intro b hb
  unfold utf8Encode at hb
  rw [List.mem_flatten] at hb
  obtain ⟨l, hl, hbl⟩ := hb
  rw [List.mem_map] at hl
  obtain ⟨c, hcs, rfl⟩ := hl
  exact utf8EncodeChar_mem_lt (h c hcs) b hbl

theorem utf8EncodeChar_mem_ne_zero {c : Nat} (hc : c ≠ 0) :
    ∀ b ∈ utf8EncodeChar c, b ≠ 0 := by
  intro b hb
  unfold utf8EncodeChar at hb
  split at hb
  · simp only [List.mem_singleton] at hb
    omega
  · split at hb
    · simp only [List.mem_cons, List.mem_singleton] at hb
      rcases hb with rfl | rfl | hb
      · omega
      · omega
      · simp at hb
    · split at hb
      · simp only [List.mem_cons, List.mem_singleton] at hb
        rcases hb with rfl | rfl | rfl | hb
        · omega
        · omega
        · omega
        · simp at hb
      · simp only [List.mem_cons, List.mem_singleton] at hb
        rcases hb with rfl | rfl | rfl | rfl | hb
        · omega
        · omega
        · omega
        · omega
        · simp at hb

theorem utf8Encode_not_mem_zero {cs : List Nat} (h0 : 0 ∉ cs) :
    0 ∉ utf8Encode cs := by
  intro hb
  unfold utf8Encode at hb
  rw [List.mem_flatten] at hb
  obtain ⟨l, hl, hbl⟩ := hb
  rw [List.mem_map] at hl
  obtain ⟨c, hcs, rfl⟩ := hl
  exact utf8EncodeChar_mem_ne_zero (fun hceq => h0 (hceq ▸ hcs)) 0 hbl rfl

theorem utf8Encode_take3_ne_bom {cs : List Nat} (h : isScalarList cs)
    (hh : cs.head? ≠ some 0xFEFF) :
    (utf8Encode cs).take 3 ≠ [0xEF, 0xBB, 0xBF] := by
  cases cs with
  | nil => simp [utf8Encode]
  | cons c rest =>
    have hc : isScalar c := h c (by simp)
    have hcne : c ≠ 0xFEFF := by
      intro hceq
      exact hh (by simp [hceq])
    obtain ⟨hlt, hsur⟩ := hc
    rw [utf8Encode_cons]
    unfold utf8EncodeChar
    by_cases h1 : c < 0x80
    · rw [if_pos h1]
      intro heq
      simp only [List.cons_append, List.nil_append, List.take_succ_cons,
        List.cons.injEq] at heq
      omega
    · by_cases h2 : c < 0x800
      · rw [if_neg h1, if_pos h2]
        intro heq
        simp only [List.cons_append, List.nil_append, List.take_succ_cons,
          List.cons.injEq] at heq
        omega
      · by_cases h3 : c < 0x10000
        · rw [if_neg h1, if_neg h2, if_pos h3]
          intro heq
          simp only [List.cons_append, List.nil_append, List.take_succ_cons,
            List.cons.injEq] at heq
          omega
        · rw [if_neg h1, if_neg h2, if_neg h3]
          intro heq
          simp only [List.cons_append, List.nil_append, List.take_succ_cons,
            List.cons.injEq] at heq
          omega

theorem utf8Encode_ascii_id {cs : List Nat}
    (hall : ∀ b ∈ utf8Encode cs, b < 0x80) :
    (∀ c ∈ cs, c < 0x80) ∧ utf8Encode cs = cs := by
  induction cs with
  | nil => exact ⟨by simp, rfl⟩
  | cons c rest ih =>
    by_cases hc : c < 0x80
    · have he : utf8EncodeChar c = [c] := by
        unfold utf8EncodeChar
        rw [if_pos hc]
      have hrest : ∀ b ∈ utf8Encode rest, b < 0x80 := by
        intro b hb
        exact hall b (by rw [utf8Encode_cons, he]; simp [hb])
      obtain ⟨ih1, ih2⟩ := ih hrest
      refine ⟨?_, ?_⟩
      · intro x hx
        rcases List.mem_cons.mp hx with rfl | hx'
        · exact hc
        · exact ih1 x hx'
      · rw [utf8Encode_cons, he, ih2]
        rfl
    · obtain ⟨b1, bs, he, hb1⟩ := utf8EncodeChar_head_ge hc
      have : b1 ∈ utf8Encode (c :: rest) := by
        rw [utf8Encode_cons, he]
        simp
      have := hall b1 this
      omega

theorem asciiDecode_eq {l cs : List Nat} (h : asciiDecode l = some cs) :
    cs = l ∧ ∀ c ∈ l, c < 0x80 := by
  induction l generalizing cs with
  | nil =>
    have : cs = [] := by
      have : (some [] : Option (List Nat)) = some cs := h
      simpa using this.symm
    subst this
    exact ⟨rfl, by simp⟩
  | cons b t ih =>
    unfold asciiDecode at h
    split at h
    · cases hr : asciiDecode t with
      | none => rw [hr] at h; simp at h
      | some cs' =>
        rw [hr] at h
        have h' : b :: cs' = cs := by simpa using h
        subst h'
        obtain ⟨h1, h2⟩ := ih hr
        subst h1
        refine ⟨rfl, ?_⟩
        intro x hx
        rcases List.mem_cons.mp hx with rfl | hx'
        · assumption
        · exact h2 x hx'
    · simp at h

theorem asciiDecode_self {cs : List Nat} (h : ∀ c ∈ cs, c < 0x80) :
    asciiDecode cs = some cs := by
  induction cs with
  | nil => rfl
  | cons c rest ih =>
    unfold asciiDecode
    rw [if_pos (h c (by simp))]
    rw [ih (fun x hx => h x (by simp [hx]))]
    rfl

theorem cp1252DecodeByte_big {b : Nat} (hb : 0x100 ≤ b) :
    cp1252DecodeByte b = none := by
  unfold cp1252DecodeByte
  repeat rw [if_neg (by omega)]

set_option maxRecDepth 40000 in
theorem cp1252_table_fin :
    ∀ b : Fin 0x100,
      ((cp1252DecodeByte b.val).isSome = true →
        (cp1252DecodeByte b.val).getD 0 ≤ 0x2122 ∧
        cp1252EncodeChar ((cp1252DecodeByte b.val).getD 0) = some b.val) ∧
      ((cp1252DecodeByte b.val).isSome = false →
        b.val = 0x81 ∨ b.val = 0x8D ∨ b.val = 0x8F ∨ b.val = 0x90 ∨
          b.val = 0x9D) := by
  decide

theorem cp1252DecodeByte_some {b c : Nat} (h : cp1252DecodeByte b = some c) :
    b ≤ 0xFF ∧ c ≤ 0x2122 ∧ cp1252EncodeChar c = some b := by
  have hb : b ≤ 0xFF := by
    by_contra hb
    rw [cp1252DecodeByte_big (by omega)] at h
    exact absurd h (by simp)
  have := (cp1252_table_fin ⟨b, by omega⟩).1
  rw [h] at this
  have := this rfl
  simpa using ⟨hb, this⟩

theorem cp1252DecodeByte_defined {b : Nat} (hb : b ≤ 0xFF)
    (hbad : ¬(b = 0x81 ∨ b = 0x8D ∨ b = 0x8F ∨ b = 0x90 ∨ b = 0x9D)) :
    ∃ c, cp1252DecodeByte b = some c := by
  have := (cp1252_table_fin ⟨b, by omega⟩).2
  cases hd : cp1252DecodeByte b with
  | some c => exact ⟨c, rfl⟩
  | none =>
    rw [hd] at this
    exact absurd (this rfl) hbad

theorem cp1252Decode_some {l cs : List Nat} (h : cp1252Decode l = some cs) :
    isScalarList cs ∧ cp1252Encode cs = some l := by
  induction l generalizing cs with
  | nil =>
    have : cs = [] := by
      have : (some [] : Option (List Nat)) = some cs := h
      simpa using this.symm
    subst this
    exact ⟨fun x hx => absurd hx (List.not_mem_nil x), rfl⟩
  | cons b t ih =>
    unfold cp1252Decode at h
    cases hd : cp1252DecodeByte b with
    | none => rw [hd] at h; simp at h
    | some c =>
      rw [hd] at h
      dsimp only at h
      cases hr : cp1252Decode t with
      | none => rw [hr] at h; simp at h
      | some cs' =>
        rw [hr] at h
        have h' : c :: cs' = cs := by simpa using h
        subst h'
        obtain ⟨hsc, henc⟩ := ih hr
        obtain ⟨hble, hcle, hinv⟩ := cp1252DecodeByte_some hd
        refine ⟨?_, ?_⟩
        · intro x hx
          rcases List.mem_cons.mp hx with rfl | hx'
          · exact ⟨by omega, by omega⟩
          · exact hsc x hx'
        · unfold cp1252Encode
          rw [hinv]
          dsimp only
          rw [henc]
          rfl

theorem cp1252Decode_defined :
    ∀ {l : List Nat}, (∀ b ∈ l, b ≤ 0xFF) →
      (∀ b ∈ l, ¬(b = 0x81 ∨ b = 0x8D ∨ b = 0x8F ∨ b = 0x90 ∨ b = 0x9D)) →
      ∃ cs, cp1252Decode l = some cs := by
  intro l
  induction l with
  | nil => exact fun _ _ => ⟨[], rfl⟩
  | cons b t ih =>
    intro hle hbad
    obtain ⟨c, hc⟩ := cp1252DecodeByte_defined (hle b (by simp))
      (hbad b (by simp))
    obtain ⟨cs, hcs⟩ := ih (fun x hx => hle x (by simp [hx]))
      (fun x hx => hbad x (by simp [hx]))
    refine ⟨c :: cs, ?_⟩
    unfold cp1252Decode
    rw [hc]
    dsimp only
    rw [hcs]
    rfl

theorem utf16Units_le :
    ∀ (n : Nat) (le : Bool) (l us : List Nat), l.length ≤ n →
      (∀ b ∈ l, b < 256) → utf16Units le l = some us →
      ∀ u ∈ us, u ≤ 0xFFFF := by
  intro n
  induction n with
  | zero =>
    intro le l us hl hb h
    have : l = [] := by cases l with | nil => rfl | cons a t => simp at hl
    subst this
    have : us = [] := by
      have : (some [] : Option (List Nat)) = some us := h
      simpa using this.symm
    subst this
    intro u hu
    exact absurd hu (List.not_mem_nil u)
  | succ n ih =>
    intro le l us hl hb h
    match l with
    | [] =>
      have : us = [] := by
        have : (some [] : Option (List Nat)) = some us := h
        simpa using this.symm
      subst this
      intro u hu
      exact absurd hu (List.not_mem_nil u)
    | [b] => simp [utf16Units] at h
    | b0 :: b1 :: rest =>
      unfold utf16Units at h
      cases hr : utf16Units le rest with
      | none => rw [hr] at h; simp at h
      | some us' =>
        rw [hr] at h
        have h' : (if le then b0 + 256 * b1 else b1 + 256 * b0) :: us' = us := by
          simpa using h
        subst h'
        intro u hu
        rcases List.mem_cons.mp hu with rfl | hu'
        · have hb0 : b0 < 256 := hb b0 (by simp)
          have hb1 : b1 < 256 := hb b1 (by simp)
          split <;> omega
        · have hrest : rest.length ≤ n := by
            simp only [List.length_cons] at hl
            omega
          exact ih le rest us' hrest (fun x hx => hb x (by simp [hx])) hr u hu'

theorem combineSurrogates_scalar :
    ∀ (n : Nat) (us cs : List Nat), us.length ≤ n →
      (∀ u ∈ us, u ≤ 0xFFFF) → combineSurrogates us = some cs →
      isScalarList cs := by
  intro n
  induction n with
  | zero =>
    intro us cs hl hu h
    have : us = [] := by cases us with | nil => rfl | cons a t => simp at hl
    subst this
    have : cs = [] := by
      have : (some [] : Option (List Nat)) = some cs := h
      simpa using this.symm
    subst this
    exact fun x hx => absurd hx (List.not_mem_nil x)
  | succ n ih =>
    intro us cs hl hu h
    cases us with
    | nil =>
      have : cs = [] := by
        have : (some [] : Option (List Nat)) = some cs := h
        simpa using this.symm
      subst this
      exact fun x hx => absurd hx (List.not_mem_nil x)
    | cons u rest =>
      unfold combineSurrogates at h
      split at h
      · -- high surrogate: need a following low surrogate
        cases rest with
        | nil => simp at h
        | cons u2 rest2 =>
          dsimp only at h
          split at h
          · cases hr : combineSurrogates rest2 with
            | none => rw [hr] at h; simp at h
            | some cs' =>
              rw [hr] at h
              have h' : (0x10000 + (u - 0xD800) * 0x400 + (u2 - 0xDC00)) :: cs' = cs := by
                simpa using h
              subst h'
              intro x hx
              rcases List.mem_cons.mp hx with hxe | hx'
              · have hu1 : u ≤ 0xFFFF := hu u (List.mem_cons_self u _)
                have hu2 : u2 ≤ 0xFFFF :=
                  hu u2 (List.mem_cons_of_mem _ (List.mem_cons_self u2 _))
                rw [hxe]
                refine ⟨by omega, by omega⟩
              · have hrest : rest2.length ≤ n := by
                  simp only [List.length_cons] at hl
                  omega
                exact ih rest2 cs' hrest
                  (fun x hx2 => hu x (by simp [hx2])) hr x hx'
          · simp at h
      · split at h
        · simp at h
        · cases hr : combineSurrogates rest with
          | none => rw [hr] at h; simp at h
          | some cs' =>
            rw [hr] at h
            have h' : u :: cs' = cs := by simpa using h
            subst h'
            intro x hx
            rcases List.mem_cons.mp hx with rfl | hx'
            · have hx1 : x ≤ 0xFFFF := hu x (by simp)
              refine ⟨by omega, by omega⟩
            · have hrest : rest.length ≤ n := by
                simp only [List.length_cons] at hl
                omega
              exact ih rest cs' hrest (fun y hy => hu y (by simp [hy])) hr x hx'

theorem utf16Decode_isScalarList {data cs : List Nat}
    (hb : ∀ b ∈ data, b < 256) (h : utf16Decode data = some cs) :
    isScalarList cs := by
  unfold utf16Decode at h
  split at h
  · cases hu : utf16Units true (data.drop 2) with
    | none => rw [hu] at h; simp at h
    | some us =>
      rw [hu] at h
      exact combineSurrogates_scalar us.length us cs le_rfl
        (utf16Units_le (data.drop 2).length true (data.drop 2) us le_rfl
          (fun x hx => hb x (List.mem_of_mem_drop hx)) hu) h
  · split at h
    · cases hu : utf16Units false (data.drop 2) with
      | none => rw [hu] at h; simp at h
      | some us =>
        rw [hu] at h
        exact combineSurrogates_scalar us.length us cs le_rfl
          (utf16Units_le (data.drop 2).length false (data.drop 2) us le_rfl
            (fun x hx => hb x (List.mem_of_mem_drop hx)) hu) h
    · cases hu : utf16Units true data with
      | none => rw [hu] at h; simp at h
      | some us =>
        rw [hu] at h
        exact combineSurrogates_scalar us.length us cs le_rfl
          (utf16Units_le data.length true data us le_rfl hb hu) h

theorem utf8SigDecode_isScalarList {l cs : List Nat}
    (h : utf8SigDecode l = some cs) : isScalarList cs := by
  unfold utf8SigDecode at h
  split at h
  · exact utf8Decode_isScalarList h
  · exact utf8Decode_isScalarList h

theorem Normalize.decode_bytes_isScalarList {data : List Nat} {label : String}
    {text : List Nat} (hb : ∀ x ∈ data, x < 256)
    (h : Normalize.decode_bytes data label = .ok (some text)) :
    isScalarList text := by
  unfold Normalize.decode_bytes at h
  split at h
  · cases hd : utf8Decode data with
    | none => rw [hd] at h; simp at h
    | some t =>
      rw [hd] at h
      simp only [Except.ok.injEq, Option.some.injEq] at h
      subst h
      exact utf8Decode_isScalarList hd
  · split at h
    · cases hd : utf8SigDecode data with
      | none => rw [hd] at h; simp at h
      | some t =>
        rw [hd] at h
        simp only [Except.ok.injEq, Option.some.injEq] at h
        subst h
        exact utf8SigDecode_isScalarList hd
    · split at h
      · cases hd : asciiDecode data with
        | none => rw [hd] at h; simp at h
        | some t =>
          rw [hd] at h
          simp only [Except.ok.injEq, Option.some.injEq] at h
          subst h
          obtain ⟨rfl, hlt⟩ := asciiDecode_eq hd
          intro x hx
          exact ⟨by have := hlt x hx; omega, by have := hlt x hx; omega⟩
      · split at h
        · cases hd : cp1252Decode data with
          | none => rw [hd] at h; simp at h
          | some t =>
            rw [hd] at h
            simp only [Except.ok.injEq, Option.some.injEq] at h
            subst h
            exact (cp1252Decode_some hd).1
        · split at h
          · cases hd : utf16Decode data with
            | none => rw [hd] at h; simp at h
            | some t =>
              rw [hd] at h
              simp only [Except.ok.injEq, Option.some.injEq] at h
              subst h
              exact utf16Decode_isScalarList hb hd
          · simp at h

theorem utf8Encode_take2_ne_fffe {text : List Nat} (hs : isScalarList text) :
    (utf8Encode text).take 2 ≠ [0xFF, 0xFE] := by
  intro heq
  have hmem : 0xFF ∈ (utf8Encode text).take 2 := by rw [heq]; simp
  have := utf8Encode_mem_lt hs 0xFF (List.take_subset 2 _ hmem)
  omega

theorem utf8Encode_take2_ne_feff {text : List Nat} (hs : isScalarList text) :
    (utf8Encode text).take 2 ≠ [0xFE, 0xFF] := by
  intro heq
  have hmem : 0xFE ∈ (utf8Encode text).take 2 := by rw [heq]; simp
  have := utf8Encode_mem_lt hs 0xFE (List.take_subset 2 _ hmem)
  omega

theorem utf8Encode_contains_zero_false {text : List Nat} (hn : 0 ∉ text) :
    (utf8Encode text).contains 0 = false := by
  simpa using utf8Encode_not_mem_zero hn

/-- Classifying the UTF-8 re-encoding of a scalar text whose first character
is not U+FEFF and which contains no NUL always yields the `utf8` raw label
with the whole input as payload. -/
theorem Normalize.classify_bytes_utf8Encode {text : List Nat}
    (hs : isScalarList text) (hh : text.head? ≠ some 0xFEFF) (hn : 0 ∉ text) :
    Normalize.classify_bytes (utf8Encode text) = ("utf8", utf8Encode text) := by
  unfold Normalize.classify_bytes
  rw [if_neg (utf8Encode_take3_ne_bom hs hh),
    if_neg (utf8Encode_take2_ne_fffe hs),
    if_neg (utf8Encode_take2_ne_feff hs)]
  rw [if_neg (by rw [utf8Encode_contains_zero_false hn]; simp)]
  rw [utf8Decode_utf8Encode hs]

theorem Normalize.classify_utf8Encode_utf8 {text : List Nat}
    (hs : isScalarList text) (hh : text.head? ≠ some 0xFEFF) (hn : 0 ∉ text)
    (hany : (utf8Encode text).any (fun b => 0x80 ≤ b) = true) :
    Normalize.classify (utf8Encode text) = "utf8" := by
  simp only [Normalize.classify, Normalize.classify_bytes_utf8Encode hs hh hn]
  rw [if_pos (Or.inl trivial), hany]
  simp

theorem Normalize.classify_utf8Encode_ascii {text : List Nat}
    (hs : isScalarList text) (hh : text.head? ≠ some 0xFEFF) (hn : 0 ∉ text)
    (hany : (utf8Encode text).any (fun b => 0x80 ≤ b) = false) :
    Normalize.classify (utf8Encode text) = "ascii-only" := by
  simp only [Normalize.classify, Normalize.classify_bytes_utf8Encode hs hh hn]
  rw [if_pos (Or.inl trivial), hany]
  simp

theorem Normalize.normalize_file_utf8Encode_ok {text : List Nat}
    (hs : isScalarList text) (hh : text.head? ≠ some 0xFEFF) (hn : 0 ∉ text)
    (d b be : Bool) :
    Normalize.normalize_file (utf8Encode text) d b be =
      ⟨Normalize.classify (utf8Encode text), "ok", utf8Encode text, false⟩ := by
  cases hany : (utf8Encode text).any (fun b => 0x80 ≤ b) with
  | true =>
    have hcl := Normalize.classify_utf8Encode_utf8 hs hh hn hany
    have hdec : Normalize.decode_bytes (utf8Encode text) "utf8" =
        .ok (some text) := by
      unfold Normalize.decode_bytes
      rw [if_pos rfl, utf8Decode_utf8Encode hs]
    simp only [Normalize.normalize_file, hcl]
    rw [if_neg (by decide), hdec]
    simp
  | false =>
    have hcl := Normalize.classify_utf8Encode_ascii hs hh hn hany
    have hlow : ∀ x ∈ utf8Encode text, x < 0x80 := by
      intro x hx
      have := List.any_eq_false.mp hany x hx
      simp only [decide_eq_true_eq] at this
      omega
    obtain ⟨hchars, hid⟩ := utf8Encode_ascii_id hlow
    have hdec : Normalize.decode_bytes (utf8Encode text) "ascii-only" =
        .ok (some text) := by
      unfold Normalize.decode_bytes
      rw [if_neg (by decide), if_neg (by decide), if_pos rfl]
      rw [hid, asciiDecode_self hchars]
    simp only [Normalize.normalize_file, hcl]
    rw [if_neg (by decide), hdec]
    simp

theorem Normalize.text_of_some {data text : List Nat}
    (ht : Normalize.text_of data = some text) :
    Normalize.decode_bytes data (Normalize.classify data) = .ok (some text) := by
  simp only [Normalize.text_of] at ht
  split at ht
  · simp at ht
  · cases hd : Normalize.decode_bytes data (Normalize.classify data) with
    | error e => rw [hd] at ht; simp at ht
    | ok o =>
      cases o with
      | none => rw [hd] at ht; simp at ht
      | some t =>
        rw [hd] at ht
        simp only [Option.some.injEq] at ht
        rw [ht]

theorem Normalize.normalize_file_of_text_of {data text : List Nat}
    (ht : Normalize.text_of data = some text) (d b be : Bool) :
    Normalize.normalize_file data d b be =
      (if utf8Encode text = data then
        ⟨Normalize.classify data, "ok", data, false⟩
      else if d then ⟨Normalize.classify data, "dry-run", data, false⟩
      else if b && be then
        ⟨Normalize.classify data, "backup-exists", data, false⟩
      else ⟨Normalize.classify data, "write", utf8Encode text, b⟩ :
        NormResult) := by
  have hdec := Normalize.text_of_some ht
  have hcond : ¬(Normalize.classify data = "binary" ∨
      Normalize.classify data = "utf8-bom-invalid") := by
    simp only [Normalize.text_of] at ht
    split at ht
    · simp at ht
    · assumption
  simp only [Normalize.normalize_file]
  rw [if_neg hcond, hdec]

/-- C6 counterexample: the normalize-to-UTF-8 transform is not idempotent as
claimed.  For `EF BB BF 00` the first run writes `00`, on which the second
run reports `skip` (not `ok`); for `FF FE FF FE` (UTF-16-LE BOM followed by
an encoded U+FEFF) the first run writes `EF BB BF`, and the second run
strips it again and writes different bytes. -/
theorem C6_counterexample :
    (Normalize.normalize_file [0xEF, 0xBB, 0xBF, 0x00] false false false =
      ⟨"utf8-bom", "write", [0x00], false⟩ ∧
     Normalize.normalize_file [0x00] false false false =
      ⟨"binary", "skip", [0x00], false⟩) ∧
    (Normalize.normalize_file [0xFF, 0xFE, 0xFF, 0xFE] false false false =
      ⟨"utf16-le", "write", [0xEF, 0xBB, 0xBF], false⟩ ∧
     Normalize.normalize_file [0xEF, 0xBB, 0xBF] false false false =
      ⟨"utf8-bom", "write", [], false⟩) := by decide

/-- C6 (amended): for every byte sequence the normalizer can decode, if the
decoded text neither begins with U+FEFF nor contains a NUL character, then a
second run of `normalize_file` on the first run's resulting bytes reports
`ok` and leaves the bytes unchanged (so the transform is idempotent away
from the two counterexample families). -/
theorem C6_normalize_idempotent_amended
    (data text : List Nat) (hb : ∀ x ∈ data, x < 256)
    (ht : Normalize.text_of data = some text)
    (hh : text.head? ≠ some 0xFEFF) (hn : 0 ∉ text) :
    (Normalize.normalize_file
        (Normalize.normalize_file data false false false).fileAfter
        false false false).action = "ok" ∧
    (Normalize.normalize_file
        (Normalize.normalize_file data false false false).fileAfter
        false false false).fileAfter =
      (Normalize.normalize_file data false false false).fileAfter := by
  have hdec := Normalize.text_of_some ht
  have hs : isScalarList text := Normalize.decode_bytes_isScalarList hb hdec
  have hchar := Normalize.normalize_file_of_text_of ht false false false
  by_cases heq : utf8Encode text = data
  · rw [hchar, if_pos heq]
    show (Normalize.normalize_file data false false false).action = "ok" ∧
      (Normalize.normalize_file data false false false).fileAfter = data
    rw [hchar, if_pos heq]
    exact ⟨rfl, rfl⟩
  · rw [hchar, if_neg heq]
    simp only [Bool.false_eq_true, if_false, Bool.and_self]
    show (Normalize.normalize_file (utf8Encode text) false false false).action = "ok" ∧
      (Normalize.normalize_file (utf8Encode text) false false false).fileAfter =
        utf8Encode text
    rw [Normalize.normalize_file_utf8Encode_ok hs hh hn false false false]
    exact ⟨rfl, rfl⟩

/-- Witness for C6 (amended) at the concrete input `E9`. -/
theorem C6_witness :
    Normalize.text_of [0xE9] = some [0xE9] ∧
    (Normalize.normalize_file
        (Normalize.normalize_file [0xE9] false false false).fileAfter
        false false false).action = "ok" :=
  ⟨by decide,
   (C6_normalize_idempotent_amended [0xE9] [0xE9] (by decide) (by decide) (by decide)
      (by decide)).1⟩

/-- C2: for every input text, `fix_utf8_in_cp1252` either returns the input
unchanged with `changed = false`, or returns a text whose mojibake score is
strictly lower than the input's with `changed = true`; in particular a
line-by-line partial repair that does not strictly decrease the reassembled
whole-text score is discarded and the original text returned. -/
theorem C2_repair_score_gate (text : List Nat) :
    Fix.fix_utf8_in_cp1252 text = (text, false) ∨
    ((Fix.fix_utf8_in_cp1252 text).2 = true ∧
     Fix.mojibake_score (Fix.fix_utf8_in_cp1252 text).1 <
       Fix.mojibake_score text) := by
  unfold Fix.fix_utf8_in_cp1252
  cases hrep : (cp1252Encode text).bind utf8Decode with
  | some repaired =>
    dsimp only
    by_cases hlt : Fix.mojibake_score repaired < Fix.mojibake_score text
    · right
      rw [if_pos hlt]
      exact ⟨rfl, hlt⟩
    · left
      rw [if_neg hlt]
  | none =>
    dsimp only
    by_cases hch :
        ((splitlinesKeepends text).foldl Fix.fixLineStep ([], false)).2 = false
    · left
      rw [if_pos hch]
    · rw [if_neg hch]
      by_cases hlt : Fix.mojibake_score
          ((splitlinesKeepends text).foldl Fix.fixLineStep ([], false)).1.flatten <
          Fix.mojibake_score text
      · right
        rw [if_pos hlt]
        exact ⟨rfl, hlt⟩
      · left
        rw [if_neg hlt]

/-- C10: every text whose mojibake score is 0 is a fixed point of
`fix_utf8_in_cp1252` — it is returned unchanged with `changed = false`,
because a score of 0 can never strictly decrease. -/
theorem C10_score_zero_fixed_point (text : List Nat) (h0 : Fix.mojibake_score text = 0) :
    Fix.fix_utf8_in_cp1252 text = (text, false) := by
  unfold Fix.fix_utf8_in_cp1252
  cases hrep : (cp1252Encode text).bind utf8Decode with
  | some repaired =>
    dsimp only
    rw [if_neg (by rw [h0]; omega)]
  | none =>
    dsimp only
    by_cases hch :
        ((splitlinesKeepends text).foldl Fix.fixLineStep ([], false)).2 = false
    · rw [if_pos hch]
    · rw [if_neg hch, if_neg (by rw [h0]; omega)]

/-- C4: in all three tools, a byte sequence beginning with `EF BB BF` is
classified by stripping the 3-byte marker: `utf8-bom` when the remainder is
valid UTF-8 and `utf8-bom-invalid` otherwise, with the remainder as
payload. -/
theorem C4_bom_classification (rest : List Nat) :
    Check.classify_bytes (0xEF :: 0xBB :: 0xBF :: rest) =
      ((if (utf8Decode rest).isSome then "utf8-bom" else "utf8-bom-invalid"),
        rest) ∧
    Fix.classify_bytes (0xEF :: 0xBB :: 0xBF :: rest) =
      ((if (utf8Decode rest).isSome then "utf8-bom" else "utf8-bom-invalid"),
        rest) ∧
    Normalize.classify_bytes (0xEF :: 0xBB :: 0xBF :: rest) =
      ((if (utf8Decode rest).isSome then "utf8-bom" else "utf8-bom-invalid"),
        rest) := by
  have htake : List.take 3 (0xEF :: 0xBB :: 0xBF :: rest) =
      [0xEF, 0xBB, 0xBF] := rfl
  have hdrop : List.drop 3 (0xEF :: 0xBB :: 0xBF :: rest) = rest := rfl
  refine ⟨?_, ?_, ?_⟩
  · unfold Check.classify_bytes
    rw [if_pos htake, hdrop]
    cases hd : utf8Decode rest <;> simp
  · unfold Fix.classify_bytes
    rw [if_pos htake, hdrop]
    cases hd : utf8Decode rest <;> simp
  · unfold Normalize.classify_bytes
    rw [if_pos htake, hdrop]
    cases hd : utf8Decode rest <;> simp

/-- C3 counterexample: CP1252 decoding is not total.  The byte `81` is
classified `ansi-cp1252`, yet decoding it with the CP1252 rule raises a
decode error (byte 0x81 is undefined in CPython's cp1252 table). -/
theorem C3_counterexample :
    Fix.classify [0x81] = "ansi-cp1252" ∧
    Fix.decode_bytes [0x81] "ansi-cp1252" = .error () ∧
    Normalize.decode_bytes [0x81] "ansi-cp1252" = .error () :=
  ⟨rfl, rfl, rfl⟩

/-- C3 (amended): CP1252 decoding of an `ansi-cp1252` payload succeeds for
every byte sequence that avoids the five undefined byte values
0x81, 0x8D, 0x8F, 0x90, 0x9D; on such payloads both tools' `decode_bytes`
always produce a text and never raise. -/
theorem C3_cp1252_decode_total_amended (data : List Nat) (hle : ∀ b ∈ data, b ≤ 0xFF)
    (hbad : ∀ b ∈ data,
      ¬(b = 0x81 ∨ b = 0x8D ∨ b = 0x8F ∨ b = 0x90 ∨ b = 0x9D)) :
    ∃ t, Fix.decode_bytes data "ansi-cp1252" = .ok (some t) ∧
      Normalize.decode_bytes data "ansi-cp1252" = .ok (some t) := by
  obtain ⟨cs, hcs⟩ := cp1252Decode_defined hle hbad
  refine ⟨cs, ?_, ?_⟩
  · unfold Fix.decode_bytes
    rw [if_neg (by decide), if_neg (by decide), if_neg (by decide),
      if_pos rfl, hcs]
  · unfold Normalize.decode_bytes
    rw [if_neg (by decide), if_neg (by decide), if_neg (by decide),
      if_pos rfl, hcs]

/-- Witness for C3 (amended) at the concrete payload `48 E9`. -/
theorem C3_witness :
    ∃ t, Fix.decode_bytes [0x48, 0xE9] "ansi-cp1252" = .ok (some t) ∧
      Normalize.decode_bytes [0x48, 0xE9] "ansi-cp1252" = .ok (some t) :=
  C3_cp1252_decode_total_amended [0x48, 0xE9] (by decide) (by decide)

/-- C8 counterexample: the byte `81` is classified `ansi-cp1252` but CP1252
decoding fails on it, so no decoded text exists whose re-encoding could
reproduce the input. -/
theorem C8_counterexample :
    Fix.classify [0x81] = "ansi-cp1252" ∧ cp1252Decode [0x81] = none ∧
    Fix.decode_bytes [0x81] "ansi-cp1252" = .error () := ⟨rfl, rfl, rfl⟩

/-- C8 (amended): for every byte sequence classified `ansi-cp1252` on which
the CP1252 decode succeeds, re-encoding the decoded text with
`encode_text _ "ansi-cp1252"` reproduces the original bytes exactly. -/
theorem C8_cp1252_roundtrip_amended (data text : List Nat)
    (_hcl : Fix.classify data = "ansi-cp1252")
    (hdec : Fix.decode_bytes data "ansi-cp1252" = .ok (some text)) :
    Fix.encode_text text "ansi-cp1252" = some data := by
  unfold Fix.decode_bytes at hdec
  rw [if_neg (by decide), if_neg (by decide), if_neg (by decide),
    if_pos rfl] at hdec
  cases hd : cp1252Decode data with
  | none => rw [hd] at hdec; simp at hdec
  | some t =>
    rw [hd] at hdec
    simp only [Except.ok.injEq, Option.some.injEq] at hdec
    subst hdec
    unfold Fix.encode_text
    rw [if_pos rfl]
    exact (cp1252Decode_some hd).2

/-- Witness for C8 (amended) at the concrete payload `E9`. -/
theorem C8_witness :
    Fix.classify [0xE9] = "ansi-cp1252" ∧
    Fix.encode_text [0xE9] "ansi-cp1252" = some [0xE9] :=
  ⟨by decide, C8_cp1252_roundtrip_amended [0xE9] [0xE9] (by decide) rfl⟩

/-- C5 counterexample: the checker's secondary refinement is not guarded by
the label.  The byte sequence `00` contains a NUL and no BOM, yet
`classify_file` reports `ascii-only`, not `binary`. -/
theorem C5_counterexample :
    Check.classify_file [0x00] = ("ascii-only", 1, false, true) ∧
    (Check.classify_file [0x00]).1 ≠ "binary" := by decide

/-- C5 (amended): for every byte sequence containing `00` and not beginning
with a UTF-8 or UTF-16 BOM, the fixer and the normalizer classify it
`binary` (their `ascii-only` refinement only applies to `utf8` and
`ansi-cp1252`); the checker's `classify_file`, whose refinement has no label
guard, reports `binary` only when some byte is ≥ 0x80 and `ascii-only`
otherwise. -/
theorem C5_binary_classification_amended (data : List Nat) (h0 : data.contains 0 = true)
    (h3 : data.take 3 ≠ [0xEF, 0xBB, 0xBF]) (hf : data.take 2 ≠ [0xFF, 0xFE])
    (he : data.take 2 ≠ [0xFE, 0xFF]) :
    Fix.classify data = "binary" ∧ Normalize.classify data = "binary" ∧
    Check.classify_bytes data = ("binary", data) ∧
    (Check.classify_file data).1 =
      (if data.any (fun b => 0x80 ≤ b) then "binary" else "ascii-only") := by
  have hcbC : Check.classify_bytes data = ("binary", data) := by
    unfold Check.classify_bytes
    rw [if_neg h3, if_neg hf, if_neg he, if_pos h0]
  have hcbF : Fix.classify_bytes data = ("binary", data) := by
    unfold Fix.classify_bytes
    rw [if_neg h3, if_neg hf, if_neg he, if_pos h0]
  have hcbN : Normalize.classify_bytes data = ("binary", data) := by
    unfold Normalize.classify_bytes
    rw [if_neg h3, if_neg hf, if_neg he, if_pos h0]
  refine ⟨?_, ?_, hcbC, ?_⟩
  · simp only [Fix.classify, hcbF]
    rw [if_neg (by decide)]
  · simp only [Normalize.classify, hcbN]
    rw [if_neg (by decide)]
  · simp only [Check.classify_file, hcbC]
    cases hany : data.any (fun b => 0x80 ≤ b) <;> simp [hany]

/-- Witness for C5 (amended) at the concrete input `00 80`. -/
theorem C5_witness :
    ([0x00, 0x80] : List Nat).contains 0 = true ∧
    Fix.classify [0x00, 0x80] = "binary" ∧
    Normalize.classify [0x00, 0x80] = "binary" ∧
    (Check.classify_file [0x00, 0x80]).1 = "binary" := by
  have h := C5_binary_classification_amended [0x00, 0x80] (by decide) (by decide) (by decide)
    (by decide)
  exact ⟨by decide, h.1, h.2.1, by rw [h.2.2.2]; decide⟩

/-- C7: backup guard.  In both mutating tools, whenever a change is
detected, apply and backup are enabled and the backup target exists, the
per-file run returns `backup-exists` and writes neither the file nor the
backup (the original bytes are untouched). -/
theorem C7_backup_guard (data : List Nat) (fu : Bool)
    (m : Option (List (List Nat × List Nat))) (amf : Bool) :
    (Fix.change_detected data fu m amf = true →
      (Fix.normalize_file data true true true fu m amf).action =
          "backup-exists" ∧
      (Fix.normalize_file data true true true fu m amf).fileAfter = data ∧
      (Fix.normalize_file data true true true fu m amf).backupWritten =
          false) ∧
    (Normalize.change_detected data = true →
      Normalize.normalize_file data false true true =
        ⟨Normalize.classify data, "backup-exists", data, false⟩) := by
  constructor
  · intro hcd
    simp only [Fix.change_detected] at hcd
    split at hcd
    · simp at hcd
    · rename_i hcond
      cases hd : Fix.decode_bytes data (Fix.classify data) with
      | error e => rw [hd] at hcd; simp at hcd
      | ok o =>
        cases o with
        | none => rw [hd] at hcd; simp at hcd
        | some t0 =>
          rw [hd] at hcd
          dsimp only at hcd
          simp only [Fix.normalize_file]
          rw [if_neg hcond, hd]
          dsimp only
          rw [hcd]
          rw [if_neg (by decide), if_neg (by decide), if_pos (by decide)]
          exact ⟨rfl, rfl, rfl⟩
  · intro hcd
    simp only [Normalize.change_detected] at hcd
    cases hto : Normalize.text_of data with
    | none => rw [hto] at hcd; simp at hcd
    | some text =>
      rw [hto] at hcd
      dsimp only at hcd
      have hne : utf8Encode text ≠ data := by
        simpa using hcd
      have hchar := Normalize.normalize_file_of_text_of hto false true true
      rw [hchar, if_neg hne]
      simp

/-- Witness for C7 at concrete changed inputs for both tools. -/
theorem C7_witness :
    Fix.change_detected [0x6D, 0xC3, 0x83, 0xC2, 0xA9] true none false = true ∧
    (Fix.normalize_file [0x6D, 0xC3, 0x83, 0xC2, 0xA9] true true true true
        none false).action = "backup-exists" ∧
    (Fix.normalize_file [0x6D, 0xC3, 0x83, 0xC2, 0xA9] true true true true
        none false).fileAfter = [0x6D, 0xC3, 0x83, 0xC2, 0xA9] ∧
    Normalize.change_detected [0xE9] = true ∧
    Normalize.normalize_file [0xE9] false true true =
      ⟨"ansi-cp1252", "backup-exists", [0xE9], false⟩ := by
  have h1 := (C7_backup_guard [0x6D, 0xC3, 0x83, 0xC2, 0xA9] true none false).1
    (by decide)
  have h2 := (C7_backup_guard [0xE9] true none false).2 (by decide)
  exact ⟨by decide, h1.1, h1.2.1, by decide, by rw [h2]; decide⟩

/-- C1 counterexample: the normalizer writes with no flags passed.  On the
single byte `E9` a default invocation (`dry_run = false`) performs a write
and changes the file bytes, so the claim that no file is modified unless an
explicit apply flag is set is false for this driver. -/
theorem C1_counterexample :
    Normalize.normalize_file [0xE9] false false false =
      ⟨"ansi-cp1252", "write", [0xC3, 0xA9], false⟩ ∧
    ([0xC3, 0xA9] : List Nat) ≠ [0xE9] := by decide

/-- C1 (amended): the mojibake fixer never mutates anything unless `--apply`
is set — with `apply = false` the file and backup are untouched and a
detected change is reported `dry-run`; the normalizer only behaves that way
when `--dry-run` is set (its default is to write). -/
theorem C1_no_write_without_flag (data : List Nat) (b be fu : Bool)
    (m : Option (List (List Nat × List Nat))) (amf : Bool) :
    ((Fix.normalize_file data false b be fu m amf).fileAfter = data ∧
     (Fix.normalize_file data false b be fu m amf).backupWritten = false ∧
     (Fix.change_detected data fu m amf = true →
       (Fix.normalize_file data false b be fu m amf).action = "dry-run")) ∧
    ((Normalize.normalize_file data true b be).fileAfter = data ∧
     (Normalize.normalize_file data true b be).backupWritten = false ∧
     (Normalize.change_detected data = true →
       (Normalize.normalize_file data true b be).action = "dry-run")) := by
  constructor
  · have hfr : (Fix.normalize_file data false b be fu m amf).fileAfter = data ∧
        (Fix.normalize_file data false b be fu m amf).backupWritten = false ∧
        ((Fix.change_detected data fu m amf = true →
          (Fix.normalize_file data false b be fu m amf).action = "dry-run")) := by
      simp only [Fix.normalize_file, Fix.change_detected]
      split
      · exact ⟨rfl, rfl, by intro h; simp at h⟩
      · cases hd : Fix.decode_bytes data (Fix.classify data) with
        | error e => exact ⟨rfl, rfl, by intro h; simp at h⟩
        | ok o =>
          cases o with
          | none => exact ⟨rfl, rfl, by intro h; simp at h⟩
          | some t0 =>
            dsimp only
            by_cases hch : (Fix.transform_text t0 fu m amf).2 = false
            · rw [if_pos hch]
              refine ⟨rfl, rfl, ?_⟩
              intro h
              rw [hch] at h
              simp at h
            · rw [if_neg hch, if_pos trivial]
              exact ⟨rfl, rfl, fun _ => rfl⟩
    exact hfr
  · refine ⟨?_, ?_, ?_⟩
    · simp only [Normalize.normalize_file]
      split
      · rfl
      · cases hd : Normalize.decode_bytes data (Normalize.classify data) with
        | error e => rfl
        | ok o =>
          cases o with
          | none => rfl
          | some t =>
            dsimp only
            by_cases heq : utf8Encode t = data
            · rw [if_pos heq]
            · rw [if_neg heq, if_pos trivial]
    · simp only [Normalize.normalize_file]
      split
      · rfl
      · cases hd : Normalize.decode_bytes data (Normalize.classify data) with
        | error e => rfl
        | ok o =>
          cases o with
          | none => rfl
          | some t =>
            dsimp only
            by_cases heq : utf8Encode t = data
            · rw [if_pos heq]
            · rw [if_neg heq, if_pos trivial]
    · intro hcd
      simp only [Normalize.change_detected] at hcd
      cases hto : Normalize.text_of data with
      | none => rw [hto] at hcd; simp at hcd
      | some text =>
        rw [hto] at hcd
        dsimp only at hcd
        have hne : utf8Encode text ≠ data := by simpa using hcd
        have hchar := Normalize.normalize_file_of_text_of hto true b be
        rw [hchar, if_neg hne, if_pos rfl]

/-- Witness for C1 (amended): both tools report `dry-run` on concrete
changed inputs. -/
theorem C1_witness :
    (Fix.normalize_file [0x6D, 0xC3, 0x83, 0xC2, 0xA9] false false false true
        none false).action = "dry-run" ∧
    (Normalize.normalize_file [0xE9] true false false).action = "dry-run" := by
  have h1 := C1_no_write_without_flag [0x6D, 0xC3, 0x83, 0xC2, 0xA9] false false true
    none false
  have h2 := C1_no_write_without_flag [0xE9] false false true none false
  exact ⟨h1.1.2.2 (by decide), h2.2.2.2 (by decide)⟩

theorem lookupD_setKey_self (m : List (List Nat × List Nat))
    (k v : List Nat) : lookupD (setKey m (k, v)) k = some v := by
  induction m with
  | nil => simp [setKey, lookupD]
  | cons e rest ih =>
    unfold setKey
    by_cases he : e.1 = k
    · rw [if_pos he]
      simp [lookupD]
    · rw [if_neg he]
      unfold lookupD
      rw [if_neg he]
      exact ih

theorem lookupD_setKey_ne (m : List (List Nat × List Nat))
    (k v k' : List Nat) (hne : k' ≠ k) :
    lookupD (setKey m (k, v)) k' = lookupD m k' := by
  induction m with
  | nil =>
    simp only [setKey, lookupD]
    rw [if_neg (fun h => hne h.symm)]
  | cons e rest ih =>
    unfold setKey
    by_cases he : e.1 = k
    · rw [if_pos he]
      unfold lookupD
      rw [if_neg (fun h => hne h.symm), if_neg (fun h => hne (he ▸ h.symm))]
    · rw [if_neg he]
      unfold lookupD
      by_cases he' : e.1 = k'
      · rw [if_pos he', if_pos he']
      · rw [if_neg he', if_neg he']
        exact ih

theorem dictUpdate_cons (d : List (List Nat × List Nat))
    (kv : List Nat × List Nat) (e : List (List Nat × List Nat)) :
    dictUpdate d (kv :: e) = dictUpdate (setKey d kv) e := rfl

theorem lookupD_dictUpdate_not_mem
    (e : List (List Nat × List Nat)) :
    ∀ (d : List (List Nat × List Nat)) (k : List Nat),
      k ∉ e.map Prod.fst → lookupD (dictUpdate d e) k = lookupD d k := by
  induction e with
  | nil => intro d k _; rfl
  | cons kv e' ih =>
    intro d k hk
    rw [dictUpdate_cons]
    have hk1 : k ≠ kv.1 := by
      intro h
      exact hk (by simp [h])
    have hk2 : k ∉ e'.map Prod.fst := by
      intro h
      exact hk (by simp [h])
    rw [ih (setKey d kv) k hk2]
    exact lookupD_setKey_ne d kv.1 kv.2 k hk1

theorem lookupD_dictUpdate_right
    (e : List (List Nat × List Nat)) :
    ∀ (d : List (List Nat × List Nat)) (k v : List Nat),
      (e.map Prod.fst).Nodup → lookupD e k = some v →
      lookupD (dictUpdate d e) k = some v := by
  induction e with
  | nil =>
    intro d k v _ h
    simp [lookupD] at h
  | cons kv e' ih =>
    intro d k v hn h
    rw [dictUpdate_cons]
    simp only [List.map_cons, List.nodup_cons] at hn
    unfold lookupD at h
    by_cases hk : kv.1 = k
    · rw [if_pos hk] at h
      have hnm : k ∉ e'.map Prod.fst := by
        rw [← hk]
        exact hn.1
      rw [lookupD_dictUpdate_not_mem e' (setKey d kv) k hnm]
      rw [← hk]
      have : setKey d kv = setKey d (kv.1, kv.2) := rfl
      rw [this, lookupD_setKey_self]
      simpa using h
    · rw [if_neg hk] at h
      exact ih (setKey d kv) k v hn.2 h

theorem setKey_not_mem (d : List (List Nat × List Nat))
    (kv : List Nat × List Nat) (h : kv.1 ∉ d.map Prod.fst) :
    setKey d kv = d ++ [kv] := by
  induction d with
  | nil => rfl
  | cons e rest ih =>
    unfold setKey
    have he : e.1 ≠ kv.1 := by
      intro heq
      exact h (by simp [← heq])
    rw [if_neg he, ih (fun hm => h (by simp [List.mem_cons]; right; simpa using hm))]
    rfl

theorem dictUpdate_disjoint (e : List (List Nat × List Nat)) :
    ∀ d : List (List Nat × List Nat),
      (∀ k ∈ e.map Prod.fst, k ∉ d.map Prod.fst) →
      (e.map Prod.fst).Nodup → dictUpdate d e = d ++ e := by
  induction e with
  | nil => intro d _ _; simp [dictUpdate]
  | cons kv e' ih =>
    intro d hdisj hn
    rw [dictUpdate_cons]
    simp only [List.map_cons, List.nodup_cons] at hn
    have hkv : kv.1 ∉ d.map Prod.fst := hdisj kv.1 (by simp)
    rw [setKey_not_mem d kv hkv]
    rw [ih (d ++ [kv]) ?_ hn.2]
    · simp
    · intro k hk
      simp only [List.map_append, List.mem_append, List.map_cons] at *
      intro hcon
      rcases hcon with hcon | hcon
      · exact hdisj k (by simp [hk]) hcon
      · simp only [List.map_nil, List.mem_singleton] at hcon
        have : k = kv.1 := by simpa using hcon
        rw [this] at hk
        exact hn.1 hk

theorem setKey_ne_nil (d : List (List Nat × List Nat))
    (kv : List Nat × List Nat) : setKey d kv ≠ [] := by
  cases d with
  | nil => simp [setKey]
  | cons e rest =>
    unfold setKey
    split <;> simp

theorem dictUpdate_ne_nil (e : List (List Nat × List Nat)) :
    ∀ d : List (List Nat × List Nat), d ≠ [] → dictUpdate d e ≠ [] := by
  induction e with
  | nil => intro d hd; exact hd
  | cons kv e' ih =>
    intro d hd
    rw [dictUpdate_cons]
    exact ih (setKey d kv) (setKey_ne_nil d kv)

theorem spanish_defaults_keys_nodup :
    (Fix.SPANISH_DEFAULTS.map Prod.fst).Nodup := by decide

theorem build_mapping_eq (ext : List (List Nat × List Nat)) :
    Fix.build_mapping true (some ext) =
      some (dictUpdate Fix.SPANISH_DEFAULTS ext) := by
  unfold Fix.build_mapping
  have h1 : dictUpdate ([] : List (List Nat × List Nat)) Fix.SPANISH_DEFAULTS =
      Fix.SPANISH_DEFAULTS := by
    rw [dictUpdate_disjoint Fix.SPANISH_DEFAULTS [] (by simp)
      spanish_defaults_keys_nodup]
    simp
  simp only [if_pos trivial, h1]
  have hne : ¬(dictUpdate Fix.SPANISH_DEFAULTS ext).isEmpty = true := by
    have := dictUpdate_ne_nil ext Fix.SPANISH_DEFAULTS (by decide)
    simpa using this
  rw [if_neg hne]

theorem transform_text_map_stage (t : List Nat)
    (m : List (List Nat × List Nat)) (fu : Bool) (hm : m ≠ []) :
    (Fix.transform_text t fu (some m) true).1 =
      Fix.apply_map (if fu then (Fix.fix_utf8_in_cp1252 t).1 else t) m := by
  unfold Fix.transform_text
  dsimp only
  have hmi : (true && !m.isEmpty) = true := by
    cases m with
    | nil => exact absurd rfl hm
    | cons a l => rfl
  rw [if_pos hmi]
  cases fu with
  | false =>
    show (if Fix.apply_map t m ≠ t then (Fix.apply_map t m, true)
        else (t, false)).1 = Fix.apply_map t m
    by_cases he : Fix.apply_map t m ≠ t
    · rw [if_pos he]
    · rw [if_neg he]
      rw [not_not] at he
      exact he.symm
  | true =>
    show (if Fix.apply_map (Fix.fix_utf8_in_cp1252 t).1 m ≠
          (Fix.fix_utf8_in_cp1252 t).1 then
        (Fix.apply_map (Fix.fix_utf8_in_cp1252 t).1 m, true)
      else Fix.fix_utf8_in_cp1252 t).1 =
      Fix.apply_map (Fix.fix_utf8_in_cp1252 t).1 m
    by_cases he : Fix.apply_map (Fix.fix_utf8_in_cp1252 t).1 m ≠
        (Fix.fix_utf8_in_cp1252 t).1
    · rw [if_pos he]
    · rw [if_neg he]
      rw [not_not] at he
      exact he.symm

/-- C9: substitution-map semantics.  An external map is merged over the
built-in Spanish defaults by `dict.update`, so an external value wins for
every key present in both; `main` builds exactly that merged map; and
`apply_map` replaces every occurrence of every key with its value, keys
attempted in mapping order against the current (possibly already
mojibake-repaired) text, with no mojibake-score gate in the map stage. -/
theorem C9_substitution_map_semantics :
    (∀ (ext : List (List Nat × List Nat)) (k v : List Nat),
      (ext.map Prod.fst).Nodup → lookupD ext k = some v →
      lookupD (dictUpdate Fix.SPANISH_DEFAULTS ext) k = some v) ∧
    (∀ ext : List (List Nat × List Nat), Fix.build_mapping true (some ext) =
      some (dictUpdate Fix.SPANISH_DEFAULTS ext)) ∧
    (∀ t : List Nat, Fix.apply_map t [] = t) ∧
    (∀ (t k v : List Nat) (rest : List (List Nat × List Nat)),
      Fix.apply_map t ((k, v) :: rest) =
        Fix.apply_map (strReplace t k v) rest) ∧
    (∀ (t : List Nat) (m : List (List Nat × List Nat)) (fu : Bool), m ≠ [] →
      (Fix.transform_text t fu (some m) true).1 =
        Fix.apply_map (if fu then (Fix.fix_utf8_in_cp1252 t).1 else t) m) :=
  ⟨fun ext k v hn h =>
      lookupD_dictUpdate_right ext Fix.SPANISH_DEFAULTS k v hn h,
   build_mapping_eq,
   fun _ => rfl,
   fun _ _ _ _ => rfl,
   fun t m fu hm => transform_text_map_stage t m fu hm⟩

/-- Witness for C9: an external entry overrides the Spanish default for the
shared key, and the map stage applies the mapping verbatim. -/
theorem C9_witness :
    lookupD (dictUpdate Fix.SPANISH_DEFAULTS
        [([0x61, 0xFFFD, 0x6F], [0x58])]) [0x61, 0xFFFD, 0x6F] =
      some [0x58] ∧
    (Fix.transform_text [0x61] false (some [([0x61], [0x62])]) true).1 =
      Fix.apply_map (if false then (Fix.fix_utf8_in_cp1252 [0x61]).1
        else [0x61]) [([0x61], [0x62])] :=
  ⟨C9_substitution_map_semantics.1 [([0x61, 0xFFFD, 0x6F], [0x58])] [0x61, 0xFFFD, 0x6F] [0x58]
      (by decide) (by decide),
   C9_substitution_map_semantics.2.2.2.2 [0x61] [([0x61], [0x62])] false (by decide)⟩

/-- Witness for C10 at the pure-ASCII text "hi". -/
theorem C10_witness :
    Fix.mojibake_score [0x68, 0x69] = 0 ∧
    Fix.fix_utf8_in_cp1252 [0x68, 0x69] = ([0x68, 0x69], false) :=
  ⟨by decide, C10_score_zero_fixed_point [0x68, 0x69] (by decide)⟩
